import Mathlib

/-!
Verification development for the `atomicpaths` Go package.

The package provides atomic, crash-consistent replacement of a file or a
directory: callers write into a temporary sibling path and then commit,
driving the durable rename sequence (sync temp, close temp, rename into
place, fsync parent directory) through an idempotent bitflag state machine.

This file shallowly embeds the package's pure path/name computations
(`tmpname.go`, the unix flavour of Go's `path/filepath` functions they call,
and the base32 encoder they use) and its stateful operations
(`CreateFile`, `File.Commit`, `File.Close` from `atomicfile.go`;
`Dir.Commit`, `Dir.Close`, `CreateDir`, `renameToTemp` from `rename.go`)
over an explicit filesystem model, with every fallible OS call driven by an
explicit outcome parameter.  Machine bytes are `Fin 256`; Go `int` bitflags
are `Nat` with the source's `is`/`set` operations.
-/

/-! ## Go `path/filepath` (unix) -/

/-- The unix path separator used by `filepath` on the platforms the package
targets. -/
def sepChar : Char := '/'

/-- Translated from Go `filepath.Clean` (unix): the inner loop of the
`..`-backtracking case, `out.w--; for out.w > dotdot && out.index(out.w) != '/'
{ out.w-- }`, run after the initial decrement.  Returns the new write
position. -/
def btLoop (out : List Char) (dotdot : Nat) : Nat → Nat
  | 0 => 0
  | w + 1 =>
    if dotdot < w + 1 ∧ out.getD (w + 1) ' ' ≠ sepChar then btLoop out dotdot w
    else w + 1

/-- The `..` case of `filepath.Clean` when the buffer can backtrack:
truncate the output to just before the last path component. -/
def backtrack (out : List Char) (dotdot : Nat) : List Char :=
  out.take (btLoop out dotdot (out.length - 1))

/-- Translated from the main loop of Go `filepath.Clean` (unix).  The Go
loop reads one path element per iteration; `fuel` bounds the number of
iterations and is always instantiated with the length of the remaining
input, which suffices because every iteration consumes at least one input
byte. -/
def cleanLoop (rooted : Bool) : Nat → Nat → List Char → List Char → List Char
  | _, _, out, [] => out
  | 0, _, out, _ :: _ => out
  | fuel + 1, dotdot, out, c :: cs =>
    if c = sepChar then
      -- empty path element
      cleanLoop rooted fuel dotdot out cs
    else if c = '.' ∧ (cs = [] ∨ cs.head? = some sepChar) then
      -- . element
      cleanLoop rooted fuel dotdot out cs
    else if c = '.' ∧ cs.head? = some '.' ∧ (cs.tail = [] ∨ cs.tail.head? = some sepChar) then
      -- .. element: remove to last separator
      if dotdot < out.length then
        cleanLoop rooted fuel dotdot (backtrack out dotdot) cs.tail
      else if rooted = false then
        -- cannot backtrack, but not rooted, so append .. element
        let out1 := (if 0 < out.length then out ++ [sepChar] else out) ++ ['.', '.']
        cleanLoop rooted fuel out1.length out1 cs.tail
      else
        cleanLoop rooted fuel dotdot out cs.tail
    else
      -- real path element: add slash if needed, then copy the element
      let out1 :=
        if (rooted = true ∧ out.length ≠ 1) ∨ (rooted = false ∧ out.length ≠ 0) then
          out ++ [sepChar]
        else out
      let comp := (c :: cs).takeWhile (fun x => x ≠ sepChar)
      cleanLoop rooted fuel dotdot (out1 ++ comp) ((c :: cs).dropWhile (fun x => x ≠ sepChar))

/-- Translated from Go `filepath.Clean` (unix): normalize a path by the
lexical rules (drop repeated separators, drop `.` elements, resolve `..`
elements against earlier components, root-relative `..` is dropped).
Returns `.` for the empty cleaned result. -/
def goClean (path : String) : String :=
  if path = "" then "."
  else
    let cs := path.toList
    let rooted := cs.head? = some sepChar
    let out :=
      if rooted then cleanLoop true cs.length 1 [sepChar] cs.tail
      else cleanLoop false cs.length 0 [] cs
    if out.length = 0 then "." else String.mk out

/-- Translated from Go `filepath.Base` (unix): strip trailing separators,
then keep everything after the last separator; all-separator input gives
`/`, empty input gives `.`. -/
def goBase (path : String) : String :=
  if path = "" then "."
  else
    let stripped := (path.toList.reverse.dropWhile (fun c => c = sepChar)).reverse
    let after := (stripped.reverse.takeWhile (fun c => c ≠ sepChar)).reverse
    if after = [] then String.mk [sepChar] else String.mk after

/-- Translated from Go `filepath.Dir` (unix): drop the final non-separator
run, then `Clean` what remains (so `Dir "foo" = "."` and
`Dir "/foo" = "/"`). -/
def goDir (path : String) : String :=
  let keep := (path.toList.reverse.dropWhile (fun c => c ≠ sepChar)).reverse
  goClean (String.mk keep)

/-- Translated from Go `filepath.Join` restricted to two elements: join the
non-empty elements with a separator and `Clean` the result. -/
def goJoin (a b : String) : String :=
  if a ≠ "" then goClean (a ++ String.mk [sepChar] ++ b)
  else if b ≠ "" then goClean b
  else ""

/-! ## Go `encoding/base32` HexEncoding (no padding) and `strings.ToLower` -/

/-- The `base32.HexEncoding` alphabet. -/
def b32Alpha : List Char := "0123456789ABCDEFGHIJKLMNOPQRSTUV".toList

/-- Digit lookup of Go's base32 encoder, `enc.encode[b & 31]`. -/
def b32Digit (n : Nat) : Char := b32Alpha.getD (n &&& 31) '0'

/-- A Go `byte` shift-left, truncating to eight bits. -/
def shl8 (x k : Nat) : Nat := (x <<< k) % 256

/-- Translated from the full-group (five source bytes to eight digits) case
of Go `base32.Encoding.Encode`'s per-group `switch`, followed by the digit
lookups. -/
def encode5 (s0 s1 s2 s3 s4 : Nat) : List Char :=
  let b7 := s4 &&& 31
  let b6 := (s4 >>> 5) ||| (shl8 s3 3 &&& 31)
  let b5 := (s3 >>> 2) &&& 31
  let b4 := (s3 >>> 7) ||| (shl8 s2 1 &&& 31)
  let b3 := ((s2 >>> 4) &&& 31) ||| (shl8 s1 4 &&& 31)
  let b2 := (s1 >>> 1) &&& 31
  let b1 := ((s1 >>> 6) &&& 31) ||| (shl8 s0 2 &&& 31)
  let b0 := s0 >>> 3
  [b32Digit b0, b32Digit b1, b32Digit b2, b32Digit b3,
   b32Digit b4, b32Digit b5, b32Digit b6, b32Digit b7]

/-- ASCII lowering of one character, as `strings.ToLower` acts on the
base32 alphabet (all its characters are ASCII). -/
def lowerChar (c : Char) : Char :=
  if 'A' ≤ c ∧ c ≤ 'Z' then Char.ofNat (c.toNat + 32) else c

/-- `strings.ToLower` on a character list. -/
def lowerList (cs : List Char) : List Char := cs.map lowerChar

/-! ## Errors and entropy -/

/-- One outcome of `io.ReadFull(randSource, rnd[:])` delivering the five
random bytes of `makeTempName`. -/
structure Rnd5 where
  b0 : Fin 256
  b1 : Fin 256
  b2 : Fin 256
  b3 : Fin 256
  b4 : Fin 256
  deriving DecidableEq

/-- An abstract operating-system error value (the `error` carried by a
failing syscall). -/
structure OsErr where
  code : Nat
  deriving DecidableEq

/-- The package's error values.  Modelled from the spec: the file declaring
the exported error constants is not under `src/`; per spec section 7 and the
tests, `ErrAlreadyCommitted` (returned by `File.Commit`) and `ErrCommitted`
(returned by `Dir.Commit`, matched by the tests against
`atomicpaths.ErrAlreadyCommitted`) denote the one `AlreadyCommittedError`,
`ErrExhausted` denotes `ExhaustedError`, `os.ErrInvalid` (returned by the
dead close handlers) denotes `AlreadyClosedError`, and the wrapped
`os.ErrInvalid` of `makeTempPath` denotes `InvalidPathError`. -/
inductive Err where
  | alreadyCommitted
  | exhausted
  | invalid
  | randRead
  | invalidPath (p : String)
  | osErr (e : OsErr)
  | pathErr (op p : String) (e : OsErr)
  | commitWrap (e : Err)
  | joined (e1 e2 : Option OsErr)
  deriving DecidableEq

/-! ## `tmpname.go` -/

/-- Translated from `makeTempName` (tmpname.go): read five random bytes
(the outcome of the read is the explicit `rnd` argument; `none` is a failed
read, reported as a wrapped error), base32-hex encode them without padding,
lowercase the digits, and surround with the `.#` / `.tmp` markers. -/
def makeTempName (originalName : String) (rnd : Option Rnd5) : Except Err String :=
  match rnd with
  | none => Except.error Err.randRead
  | some r =>
    let randBits := String.mk (lowerList (encode5 r.b0.val r.b1.val r.b2.val r.b3.val r.b4.val))
    Except.ok (".#" ++ originalName ++ "-" ++ randBits ++ ".tmp")

/-- Translated from `makeTempPath` (tmpname.go): clean the path, reject an
empty or separator-terminated result, and rebuild the path with the final
component replaced by a generated temporary name. -/
def makeTempPath (origPath : String) (rnd : Option Rnd5) : Except Err String :=
  let p := goClean origPath
  if p.length = 0 ∨ p.toList.getLast? = some sepChar then
    Except.error (Err.invalidPath p)
  else
    match makeTempName (goBase p) rnd with
    | Except.error e => Except.error e
    | Except.ok name => Except.ok (goJoin (goDir p) name)

/-- Translated from the name computation of `renameToTemp` (rename.go):
the aside name for an existing destination `path` is
`makeTempName(path + ".original")`, where `path` is the full destination
path, not its base name. -/
def renameToTempName (path : String) (rnd : Option Rnd5) : Except Err String :=
  makeTempName (path ++ ".original") rnd

deriving instance DecidableEq for Except

/-! ## Filesystem model

A flat map from full paths to file contents, as an association list.
The OS primitives below (exclusive create, append-write, remove, rename)
model the POSIX calls the package issues; each is used by exactly one
source operation. -/

def Fs : Type := List (String × String)

instance : DecidableEq Fs := inferInstanceAs (DecidableEq (List (String × String)))

/-- Content of the file at `p`, if any. -/
def fsLookup (fs : Fs) (p : String) : Option String :=
  (fs.find? (fun e => e.1 = p)).map Prod.snd

/-- Remove the entry at `p` (POSIX `unlink`). -/
def fsRemove (fs : Fs) (p : String) : Fs :=
  fs.filter (fun e => e.1 ≠ p)

/-- Create or replace the entry at `p` with content `c`. -/
def fsSet (fs : Fs) (p c : String) : Fs :=
  (p, c) :: fsRemove fs p

/-- Append `s` to the file at `p` (the effect of a `Write` on the open
temporary handle, whose offset is at end of file). -/
def fsAppend (fs : Fs) (p s : String) : Fs :=
  match fsLookup fs p with
  | some c => fsSet fs p (c ++ s)
  | none => fs

/-- POSIX `rename(old, new)`: move the entry at `old` over `new`. -/
def osRename (fs : Fs) (old new : String) : Fs :=
  match fsLookup fs old with
  | some c => fsSet (fsRemove fs old) new c
  | none => fs

/-- Modelled from the spec: the `rename(parentFd, oldName, newName)`
wrapper called by `File.Commit` is not under `src/`; per spec section 4.3
step 2 it renames `oldName` to `newName`, both resolved relative to the
open parent-directory handle. -/
def osRenameAt (fs : Fs) (parent old new : String) : Fs :=
  osRename fs (goJoin parent old) (goJoin parent new)

/-- Whether `p` is `root` itself or lies underneath it (used to model the
recursive `os.RemoveAll` on a temporary directory).  The prefix test is on
the character lists of the paths. -/
def pathInTree (root p : String) : Bool :=
  p = root || (root ++ String.mk [sepChar]).data.isPrefixOf p.data

/-- POSIX recursive removal of the tree rooted at `p` (`os.RemoveAll`). -/
def fsRemoveAll (fs : Fs) (p : String) : Fs :=
  fs.filter (fun e => !(pathInTree p e.1))

/-! ## The `File` object (`atomicfile.go`, current version, lines 181-325)

`stateFlags` is a Go `int` used as a bitset; `placed`, `closed`, `synced`
are `1 << iota`.  `closeFn` is the function-pointer field dispatching
`Close`; its four possible values are the four `regClose*` functions. -/

/-- Flag `placed` (`1 << 0`). -/
def flagPlaced : Nat := 1
/-- Flag `closed` (`1 << 1`). -/
def flagClosed : Nat := 2
/-- Flag `synced` (`1 << 2`). -/
def flagSynced : Nat := 4

/-- Translated from `stateFlags.is`: `*s & f == f`. -/
def stIs (s f : Nat) : Bool := s &&& f == f

/-- Translated from `stateFlags.set`: `*s |= f`. -/
def stSet (s f : Nat) : Nat := s ||| f

/-- The four values the `closeFn` function pointer of a `File` can take:
`regCloseUncommitted`, `regCloseUncommittedAfterSync`, `regCloseCommitted`
and `regCloseAgainError`. -/
inductive CloseMode where
  | uncommitted
  | uncommittedAfterSync
  | committed
  | againError
  deriving DecidableEq

/-- The `File` object: temporary path (the embedded `os.File`'s name),
original path, parent-directory handle (modelled by the directory path it
refers to), the state bitset and the current close handler. -/
structure FileM where
  tempPath : String
  origPath : String
  parentFd : String
  st : Nat
  closeFn : CloseMode
  deriving DecidableEq

/-- Success or failure of one OS call, the explicit input deciding each
fallible step. -/
inductive OsResult where
  | ok
  | fail (e : OsErr)
  deriving DecidableEq

/-- Outcomes for the five OS calls a single `File.Commit` call can issue,
in source order: `File.Sync`, `File.Close`, `rename`, `unix.Fsync(parentFd)`,
`unix.Close(parentFd)`. -/
structure CommitOutcomes where
  syncR : OsResult
  closeTempR : OsResult
  renameR : OsResult
  fsyncR : OsResult
  closeParentR : OsResult
  deriving DecidableEq

/-- Outcomes for the OS calls a single `File.Close` call can issue:
`File.Close` and `os.Remove`. -/
structure CloseOutcomes where
  closeHandleR : OsResult
  removeR : OsResult
  deriving DecidableEq

/-- Observable OS actions, recorded in the order the code attempts them. -/
inductive Eff where
  | syncTemp
  | closeTemp
  | renameInto (oldName newName : String)
  | fsyncParent
  | closeParent
  | closeHandle
  | removeTemp (p : String)
  | removeAllTemp (p : String)
  | moveDir (src dst : String)
  deriving DecidableEq

/-- Result of one stateful `File` operation: returned error or success, the
updated object, the updated filesystem, and the trace of attempted OS
actions. -/
structure COut where
  res : Except Err Unit
  f : FileM
  fs : Fs
  tr : List Eff
  deriving DecidableEq

/-- Translated from the first guarded block of `File.Commit`
(`if !f.state.is(closed)`): sync then close the temporary file, setting
`closed` only when both succeed; either failure returns the wrapped error
without touching the flags. -/
def commitClosedBlock (f : FileM) (o : CommitOutcomes) :
    Except Err Unit × FileM × List Eff :=
  if stIs f.st flagClosed then (Except.ok (), f, [])
  else
    match o.syncR with
    | OsResult.fail e => (Except.error (Err.commitWrap (Err.osErr e)), f, [Eff.syncTemp])
    | OsResult.ok =>
      match o.closeTempR with
      | OsResult.fail e =>
        (Except.error (Err.commitWrap (Err.osErr e)), f, [Eff.syncTemp, Eff.closeTemp])
      | OsResult.ok =>
        (Except.ok (), { f with st := stSet f.st flagClosed }, [Eff.syncTemp, Eff.closeTemp])

/-- Translated from the second guarded block of `File.Commit`
(`if !f.state.is(placed)`): rename the temporary name onto the original
name relative to the parent handle; on failure the close handler becomes
`regCloseUncommittedAfterSync`, on success it becomes `regCloseCommitted`
and `placed` is set. -/
def commitPlacedBlock (fs : Fs) (f : FileM) (o : CommitOutcomes) :
    Except Err Unit × FileM × Fs × List Eff :=
  if stIs f.st flagPlaced then (Except.ok (), f, fs, [])
  else
    let oldName := goBase f.tempPath
    let newName := goBase f.origPath
    match o.renameR with
    | OsResult.fail e =>
      (Except.error (Err.commitWrap (Err.osErr e)),
        { f with closeFn := CloseMode.uncommittedAfterSync }, fs,
        [Eff.renameInto oldName newName])
    | OsResult.ok =>
      (Except.ok (),
        { f with st := stSet f.st flagPlaced, closeFn := CloseMode.committed },
        osRenameAt fs f.parentFd oldName newName,
        [Eff.renameInto oldName newName])

/-- Translated from the third guarded block of `File.Commit`
(`if !f.state.is(synced)`): fsync then close the parent directory handle,
setting `synced` only when both succeed; failures are wrapped in an
`fs.PathError` naming the parent directory. -/
def commitSyncedBlock (f : FileM) (o : CommitOutcomes) :
    Except Err Unit × FileM × List Eff :=
  if stIs f.st flagSynced then (Except.ok (), f, [])
  else
    match o.fsyncR with
    | OsResult.fail e =>
      (Except.error (Err.commitWrap (Err.pathErr "sync" (goDir f.tempPath) e)), f,
        [Eff.fsyncParent])
    | OsResult.ok =>
      match o.closeParentR with
      | OsResult.fail e =>
        (Except.error (Err.commitWrap (Err.pathErr "close" (goDir f.tempPath) e)), f,
          [Eff.fsyncParent, Eff.closeParent])
      | OsResult.ok =>
        (Except.ok (), { f with st := stSet f.st flagSynced },
          [Eff.fsyncParent, Eff.closeParent])

/-- Translated from `File.Commit` (atomicfile.go): an already fully synced
file reports `ErrAlreadyCommitted` at once; otherwise the three guarded
blocks run in order, stopping at the first failure. -/
def fileCommitW (fs : Fs) (f : FileM) (o : CommitOutcomes) : COut :=
  if stIs f.st flagSynced then ⟨Except.error Err.alreadyCommitted, f, fs, []⟩
  else
    match commitClosedBlock f o with
    | (Except.error e, f1, tr1) => ⟨Except.error e, f1, fs, tr1⟩
    | (Except.ok _, f1, tr1) =>
      match commitPlacedBlock fs f1 o with
      | (Except.error e, f2, fs2, tr2) => ⟨Except.error e, f2, fs2, tr1 ++ tr2⟩
      | (Except.ok _, f2, fs2, tr2) =>
        match commitSyncedBlock f2 o with
        | (Except.error e, f3, tr3) => ⟨Except.error e, f3, fs2, tr1 ++ tr2 ++ tr3⟩
        | (Except.ok _, f3, tr3) => ⟨Except.ok (), f3, fs2, tr1 ++ tr2 ++ tr3⟩

/-- Combine the two errors of `errors.Join(f.File.Close(), os.Remove(...))`:
`nil` only when both are `nil`. -/
def joinedRes (a b : OsResult) : Except Err Unit :=
  match a, b with
  | OsResult.ok, OsResult.ok => Except.ok ()
  | OsResult.ok, OsResult.fail e => Except.error (Err.joined none (some e))
  | OsResult.fail e, OsResult.ok => Except.error (Err.joined (some e) none)
  | OsResult.fail e1, OsResult.fail e2 => Except.error (Err.joined (some e1) (some e2))

/-- Translated from `File.Close`, dispatching on the current close handler
(`regCloseAgainError`, `regCloseCommitted`, `regCloseUncommitted`,
`regCloseUncommittedAfterSync`, atomicfile.go lines 197-214).  Each live
handler first installs `regCloseAgainError`, then performs its cleanup. -/
def fileCloseW (fs : Fs) (f : FileM) (o : CloseOutcomes) : COut :=
  match f.closeFn with
  | CloseMode.againError => ⟨Except.error Err.invalid, f, fs, []⟩
  | CloseMode.committed =>
    ⟨Except.ok (), { f with closeFn := CloseMode.againError }, fs, []⟩
  | CloseMode.uncommitted =>
    let f1 := { f with closeFn := CloseMode.againError }
    let fs1 := match o.removeR with
      | OsResult.ok => fsRemove fs f.tempPath
      | OsResult.fail _ => fs
    ⟨joinedRes o.closeHandleR o.removeR, f1, fs1,
      [Eff.closeHandle, Eff.removeTemp f.tempPath]⟩
  | CloseMode.uncommittedAfterSync =>
    let f1 := { f with closeFn := CloseMode.againError }
    match o.removeR with
    | OsResult.ok => ⟨Except.ok (), f1, fsRemove fs f.tempPath, [Eff.removeTemp f.tempPath]⟩
    | OsResult.fail e => ⟨Except.error (Err.osErr e), f1, fs, [Eff.removeTemp f.tempPath]⟩

/-! ## `CreateFile` (atomicfile.go lines 285-325) -/

/-- Translated from the retry loop of `CreateFile`: at each iteration
generate a temporary name (failure of the entropy read aborts), then open
it with create+exclusive semantics relative to the parent handle; an
existing name retries with the next iteration, success builds the `File`
with the `regCloseUncommitted` handler.  The loop runs `fuel` times
(1000 in the source) and then reports `ErrExhausted`. -/
def createFileLoopFs (parentPath origName origPath : String) (fs : Fs)
    (rnds : Nat → Option Rnd5) : Nat → Nat → Except Err (FileM × Fs)
  | _, 0 => Except.error Err.exhausted
  | i, fuel + 1 =>
    match makeTempName origName (rnds i) with
    | Except.error e => Except.error e
    | Except.ok tempName =>
      let tempPath := goJoin parentPath tempName
      match fsLookup fs tempPath with
      | some _ => createFileLoopFs parentPath origName origPath fs rnds (i + 1) fuel
      | none =>
        Except.ok
          ({ tempPath := tempPath, origPath := origPath, parentFd := parentPath,
             st := 0, closeFn := CloseMode.uncommitted },
           fsSet fs tempPath "")

/-- Translated from `CreateFile`: open the parent directory of `origPath`
as the parent handle, then run the exclusive-create retry loop with a
budget of 1000 attempts.  The `i`-th entropy read outcome is `rnds i`. -/
def createFileFs (fs : Fs) (origPath : String) (rnds : Nat → Option Rnd5) :
    Except Err (FileM × Fs) :=
  createFileLoopFs (goDir origPath) (goBase origPath) origPath fs rnds 0 1000

/-! ## The `Dir` object (`rename.go`) -/

/-- The three values the `closeFn` function pointer of a `Dir` can take:
`dirCloseUncommitted`, `dirCloseCommitted`, `dirCloseAgainError`. -/
inductive DirCloseMode where
  | uncommitted
  | committed
  | againError
  deriving DecidableEq

/-- The `Dir` object: temporary path, original path, close handler and the
committed flag. -/
structure DirM where
  tempPath : String
  origPath : String
  closeFn : DirCloseMode
  isCommitted : Bool
  deriving DecidableEq

/-- Result of one stateful `Dir` operation. -/
structure DOut where
  res : Except Err Unit
  d : DirM
  fs : Fs
  tr : List Eff
  deriving DecidableEq

/-- Net effect on the filesystem of a successful `move(src, dst)`
(rename.go): the tree previously at `dst` is gone and the tree previously
at `src` now hangs off `dst` (each moved path keeps its suffix past
`src`). -/
def dirMoveFs (fs : Fs) (src dst : String) : Fs :=
  (fs.filter (fun e => !(pathInTree dst e.1))).map
    (fun e => if pathInTree src e.1
      then (dst ++ String.mk (e.1.data.drop src.data.length), e.2) else e)

/-- Translated from `Dir.Commit` (rename.go lines 150-161): an already
committed directory reports `ErrCommitted` at once; otherwise `move` runs
(its overall outcome is the explicit `moveR` argument) and success installs
`dirCloseCommitted` and sets the committed flag. -/
def dirCommitW (fs : Fs) (d : DirM) (moveR : OsResult) : DOut :=
  if d.isCommitted then ⟨Except.error Err.alreadyCommitted, d, fs, []⟩
  else
    match moveR with
    | OsResult.fail e =>
      ⟨Except.error (Err.osErr e), d, fs, [Eff.moveDir d.tempPath d.origPath]⟩
    | OsResult.ok =>
      ⟨Except.ok (),
        { d with closeFn := DirCloseMode.committed, isCommitted := true },
        dirMoveFs fs d.tempPath d.origPath,
        [Eff.moveDir d.tempPath d.origPath]⟩

/-- Translated from `Dir.Close`, dispatching on the current close handler
(`dirCloseAgainError`, `dirCloseCommitted`, `dirCloseUncommitted`,
rename.go lines 116-126). -/
def dirCloseW (fs : Fs) (d : DirM) (removeR : OsResult) : DOut :=
  match d.closeFn with
  | DirCloseMode.againError => ⟨Except.error Err.invalid, d, fs, []⟩
  | DirCloseMode.committed =>
    ⟨Except.ok (), { d with closeFn := DirCloseMode.againError }, fs, []⟩
  | DirCloseMode.uncommitted =>
    let d1 := { d with closeFn := DirCloseMode.againError }
    match removeR with
    | OsResult.ok => ⟨Except.ok (), d1, fsRemoveAll fs d.tempPath, [Eff.removeAllTemp d.tempPath]⟩
    | OsResult.fail e => ⟨Except.error (Err.osErr e), d1, fs, [Eff.removeAllTemp d.tempPath]⟩

/-! ## The creation retry loop, abstractly

`CreateFile` (atomicfile.go lines 297-324) and `CreateDir` (rename.go lines
163-184) share the same control flow: up to 1000 attempts, each of which
either fails generating a name (abort), finds the name taken (retry), fails
the OS creation call for another reason (abort), or succeeds.  The loop
below is that shared shape with the attempt outcomes abstracted. -/

/-- Outcome of one creation attempt. -/
inductive AttemptR where
  | nameErr (e : Err)
  | exist
  | osFail (e : OsErr)
  | success
  deriving DecidableEq

/-- The shared retry loop of `CreateFile` and `CreateDir`, returning the
index of the successful attempt. -/
def createRetryLoop (att : Nat → AttemptR) : Nat → Nat → Except Err Nat
  | _, 0 => Except.error Err.exhausted
  | i, fuel + 1 =>
    match att i with
    | AttemptR.nameErr e => Except.error e
    | AttemptR.osFail e => Except.error (Err.osErr e)
    | AttemptR.success => Except.ok i
    | AttemptR.exist => createRetryLoop att (i + 1) fuel

/-- The retry loop with the source's budget of 1000 attempts. -/
def createRetry (att : Nat → AttemptR) : Except Err Nat :=
  createRetryLoop att 0 1000

/-! ## Caller-side write/sync operations on the temporary handle -/

/-- One caller operation on the open temporary handle between creation and
commit: a `Write` of a string, or a `Sync`. -/
inductive WOp where
  | wr (s : String)
  | syncOp
  deriving DecidableEq

/-- Apply a sequence of caller operations to the filesystem: writes append
to the file at `p` (the temporary path the handle refers to), syncs do not
change what reads observe. -/
def applyOps (fs : Fs) (p : String) : List WOp → Fs
  | [] => fs
  | WOp.wr s :: rest => applyOps (fsAppend fs p s) p rest
  | WOp.syncOp :: rest => applyOps fs p rest

/-- The concatenation of all data written by a sequence of caller
operations. -/
def writesOf : List WOp → String
  | [] => ""
  | WOp.wr s :: rest => s ++ writesOf rest
  | WOp.syncOp :: rest => writesOf rest

/-- One caller mutation inside the temporary directory tree between
`CreateDir` and `Commit`: create or overwrite the file at relative path
`s` under the temporary directory, with content `c`. -/
inductive DOp where
  | dwr (s c : String)
  deriving DecidableEq

/-- Apply a sequence of caller mutations under the temporary directory
`tmp`: each write sets the file at `tmp/<s>`. -/
def applyDirOps (fs : Fs) (tmp : String) : List DOp → Fs
  | [] => fs
  | DOp.dwr s c :: rest =>
    applyDirOps (fsSet fs ((tmp ++ String.mk [sepChar]) ++ s) c) tmp rest

/-- Commit outcomes with every OS call succeeding. -/
def allOkC : CommitOutcomes :=
  ⟨OsResult.ok, OsResult.ok, OsResult.ok, OsResult.ok, OsResult.ok⟩

/-- Close outcomes with every OS call succeeding. -/
def allOkCl : CloseOutcomes := ⟨OsResult.ok, OsResult.ok⟩

/-! ## Support predicates for the `Clean` buffer invariant -/

/-- Two adjacent output characters are never both separators. -/
def noTwoSep (a b : Char) : Prop := a ≠ sepChar ∨ b ≠ sepChar

/-- Invariant of the `Clean` output buffer: no two adjacent separators, the
buffer ends in a separator only when it is exactly the root, `dotdot` is a
position inside the buffer, and the `dotdot` barrier sits just after the
leading root separator (rooted) or after the last appended `..` element
(relative, where the buffer also never starts with a separator). -/
def cleanInv (rooted : Bool) (dotdot : Nat) (out : List Char) : Prop :=
  List.Chain' noTwoSep out ∧
  (out = [sepChar] ∨ out.getLast? ≠ some sepChar) ∧
  dotdot ≤ out.length ∧
  (rooted = true → dotdot = 1 ∧ out.head? = some sepChar) ∧
  (rooted = false → out.head? ≠ some sepChar ∧
    (dotdot = 0 ∨ (1 ≤ dotdot ∧ out[dotdot - 1]? = some '.')))

/-! ## Concrete fixtures used by witnesses and counterexamples -/

/-- All-zero entropy bytes. -/
def rz : Rnd5 := ⟨0, 0, 0, 0, 0⟩

/-- A freshly created `File` replacing `/tmp/foo`, as `CreateFile` builds it
with the all-zero entropy read. -/
def fEx0 : FileM :=
  ⟨"/tmp/.#foo-00000000.tmp", "/tmp/foo", "/tmp", 0, CloseMode.uncommitted⟩

/-- The same `File` after a fully successful commit. -/
def fExDone : FileM :=
  ⟨"/tmp/.#foo-00000000.tmp", "/tmp/foo", "/tmp", 7, CloseMode.againError⟩

/-- A fresh uncommitted `Dir` and its committed counterpart. -/
def dEx0 : DirM := ⟨"/tmp/.#dirname-00000000.tmp", "/tmp/dirname", DirCloseMode.uncommitted, false⟩

/-- The committed `Dir` fixture. -/
def dExDone : DirM := ⟨"/tmp/.#dirname-00000000.tmp", "/tmp/dirname", DirCloseMode.committed, true⟩

/-- A one-file filesystem holding the overwrite scenario's old content. -/
def fsEx : Fs := [("/tmp/foo", "Hello World!\n")]

example : goClean "/tmp//foo/./bar/.." = "/tmp/foo" := by decide
example : goClean "" = "." := by decide
example : goClean "/../" = "/" := by decide
example : goClean "a/.." = "." := by decide
example : goClean "../../x" = "../../x" := by decide
example : goBase "/tmp/foo/" = "foo" := by decide
example : goBase "///" = "/" := by decide
example : goDir "/tmp/foo" = "/tmp" := by decide
example : goDir "foo" = "." := by decide
example : goJoin "/tmp" ".#foo-00000000.tmp" = "/tmp/.#foo-00000000.tmp" := by decide
example : makeTempName "foo" (some ⟨0, 0, 0, 0, 0⟩) = Except.ok ".#foo-00000000.tmp" := by decide
example : makeTempName "foo" (some ⟨255, 255, 255, 255, 255⟩) = Except.ok ".#foo-vvvvvvvv.tmp" := by decide
example : makeTempPath "/tmp/foo" (some ⟨0, 0, 0, 0, 0⟩) = Except.ok "/tmp/.#foo-00000000.tmp" := by decide
example : makeTempPath "/" (some ⟨0, 0, 0, 0, 0⟩) = Except.error (Err.invalidPath "/") := by decide

/-! ## Filesystem lemmas -/

theorem fsLookup_filter_keep (fs : Fs) (pr : String × String → Bool) (q : String)
    (h : ∀ c, pr (q, c) = true) :
    fsLookup (fs.filter pr) q = fsLookup fs q := by
  induction fs with
  | nil => rfl
  | cons a fs ih =>
    obtain ⟨ap, ac⟩ := a
    by_cases hq : ap = q
    · subst hq
      simp [fsLookup, List.filter, h ac, List.find?]
    · by_cases hp : pr (ap, ac) = true <;>
        simp [fsLookup, List.filter, hp, List.find?, hq] <;>
        simpa [fsLookup] using ih

theorem fsLookup_filter_drop (fs : Fs) (pr : String × String → Bool) (q : String)
    (h : ∀ c, pr (q, c) = false) :
    fsLookup (fs.filter pr) q = none := by
  induction fs with
  | nil => rfl
  | cons a fs ih =>
    obtain ⟨ap, ac⟩ := a
    by_cases hq : ap = q
    · subst hq
      simpa [List.filter, h ac] using ih
    · by_cases hp : pr (ap, ac) = true <;>
        simp [List.filter, hp] <;>
        simpa [fsLookup, List.find?, hq] using ih

theorem fsLookup_fsRemove_ne (fs : Fs) (p q : String) (h : q ≠ p) :
    fsLookup (fsRemove fs p) q = fsLookup fs q := by
  apply fsLookup_filter_keep
  intro c
  simpa using h

theorem fsLookup_fsRemove_self (fs : Fs) (p : String) :
    fsLookup (fsRemove fs p) p = none := by
  apply fsLookup_filter_drop
  intro c
  simp

theorem fsLookup_fsSet_self (fs : Fs) (p c : String) :
    fsLookup (fsSet fs p c) p = some c := by
  simp [fsSet, fsLookup, List.find?]

theorem fsLookup_fsSet_ne (fs : Fs) (p c q : String) (h : q ≠ p) :
    fsLookup (fsSet fs p c) q = fsLookup fs q := by
  have h1 : fsLookup ((p, c) :: fsRemove fs p) q = fsLookup (fsRemove fs p) q := by
    simp [fsLookup, List.find?, Ne.symm h]
  rw [show fsSet fs p c = (p, c) :: fsRemove fs p from rfl, h1]
  exact fsLookup_fsRemove_ne fs p q h

theorem fsLookup_fsRemoveAll_out (fs : Fs) (t q : String)
    (h : pathInTree t q = false) :
    fsLookup (fsRemoveAll fs t) q = fsLookup fs q := by
  apply fsLookup_filter_keep
  intro c
  simp [h]

theorem fsLookup_fsAppend_ne (fs : Fs) (p s q : String) (h : q ≠ p) :
    fsLookup (fsAppend fs p s) q = fsLookup fs q := by
  unfold fsAppend
  cases hl : fsLookup fs p with
  | none => rfl
  | some c => exact fsLookup_fsSet_ne fs p (c ++ s) q h

theorem fsLookup_fsAppend_self (fs : Fs) (p s c : String) (h : fsLookup fs p = some c) :
    fsLookup (fsAppend fs p s) p = some (c ++ s) := by
  unfold fsAppend
  rw [h]
  exact fsLookup_fsSet_self fs p (c ++ s)

theorem applyOps_lookup_ne (ops : List WOp) (fs : Fs) (p q : String) (h : q ≠ p) :
    fsLookup (applyOps fs p ops) q = fsLookup fs q := by
  induction ops generalizing fs with
  | nil => rfl
  | cons op rest ih =>
    cases op with
    | wr s => rw [show applyOps fs p (WOp.wr s :: rest) = applyOps (fsAppend fs p s) p rest from rfl,
        ih (fsAppend fs p s), fsLookup_fsAppend_ne fs p s q h]
    | syncOp => exact ih fs

theorem applyOps_lookup_self (ops : List WOp) (fs : Fs) (p c : String)
    (h : fsLookup fs p = some c) :
    fsLookup (applyOps fs p ops) p = some (c ++ writesOf ops) := by
  induction ops generalizing fs c with
  | nil => simpa [writesOf] using h
  | cons op rest ih =>
    cases op with
    | wr s =>
      rw [show applyOps fs p (WOp.wr s :: rest) = applyOps (fsAppend fs p s) p rest from rfl]
      rw [ih (fsAppend fs p s) (c ++ s) (fsLookup_fsAppend_self fs p s c h)]
      simp [writesOf, String.append_assoc]
    | syncOp =>
      rw [show applyOps fs p (WOp.syncOp :: rest) = applyOps fs p rest from rfl]
      rw [ih fs c h]
      simp [writesOf]

/-! ## Claim C3: double commit -/

/-- Claim C3: for every `File` whose commit has fully succeeded (the
`synced` flag is set) and every `Dir` whose commit has fully succeeded
(`isCommitted` is set), a second `Commit` call returns
`AlreadyCommittedError`, leaves the object and the filesystem unchanged,
and attempts no filesystem action at all. -/
theorem claim3_double_commit (fs : Fs) (f : FileM) (o : CommitOutcomes)
    (d : DirM) (mR : OsResult)
    (hf : stIs f.st flagSynced = true) (hd : d.isCommitted = true) :
    fileCommitW fs f o = ⟨Except.error Err.alreadyCommitted, f, fs, []⟩ ∧
    dirCommitW fs d mR = ⟨Except.error Err.alreadyCommitted, d, fs, []⟩ := by
  constructor
  · simp [fileCommitW, hf]
  · simp [dirCommitW, hd]

/-- Witness for C3 at a concrete committed file and directory. -/
theorem claim3_witness :
    fileCommitW fsEx fExDone allOkC = ⟨Except.error Err.alreadyCommitted, fExDone, fsEx, []⟩ ∧
    dirCommitW fsEx dExDone OsResult.ok =
      ⟨Except.error Err.alreadyCommitted, dExDone, fsEx, []⟩ :=
  claim3_double_commit fsEx fExDone allOkC dExDone OsResult.ok (by decide) (by decide)

/-! ## Claim C5: the generated temporary name -/

/-- Every lowered base32-hex digit is a lowercase base32-hex digit. -/
theorem lowerDigit_mem : ∀ m, m < 32 →
    lowerChar (b32Alpha.getD m '0') ∈ "0123456789abcdefghijklmnopqrstuv".toList := by
  decide

/-- Counterexample for C5 as stated: the encoded random part of a
temporary name has 8 digits, not 10. -/
theorem claim5_counterexample :
    String.mk (lowerList (encode5 0 0 0 0 0)) = "00000000" ∧
    (String.mk (lowerList (encode5 0 0 0 0 0))).length ≠ 10 := by decide

/-- Claim C5 (amended): for every original name and successful 5-byte
entropy read, the generated name is exactly
`.#<original>-<random>.tmp` where `<random>` is the lowercase unpadded
base-32 hex encoding of the bytes and consists of 8 (not 10) lowercase
base-32 digits; a failed entropy read fails with `RandomSourceError`. -/
theorem claim5_tempname_amended (orig : String) (r : Rnd5) :
    makeTempName orig (some r) =
      Except.ok (".#" ++ orig ++ "-" ++
        String.mk (lowerList (encode5 r.b0.val r.b1.val r.b2.val r.b3.val r.b4.val)) ++ ".tmp") ∧
    (lowerList (encode5 r.b0.val r.b1.val r.b2.val r.b3.val r.b4.val)).length = 8 ∧
    (∀ c, c ∈ lowerList (encode5 r.b0.val r.b1.val r.b2.val r.b3.val r.b4.val) →
      c ∈ "0123456789abcdefghijklmnopqrstuv".toList) ∧
    makeTempName orig none = Except.error Err.randRead := by
  refine ⟨rfl, by simp [lowerList, encode5], ?_, rfl⟩
  intro c hc
  have hb : ∀ n : Nat, lowerChar (b32Digit n) ∈ "0123456789abcdefghijklmnopqrstuv".toList := by
    intro n
    have hlt : n &&& 31 < 32 := Nat.lt_of_le_of_lt Nat.and_le_right (by omega)
    simpa [b32Digit] using lowerDigit_mem (n &&& 31) hlt
  simp only [lowerList, encode5, List.map, List.mem_cons, List.not_mem_nil, or_false] at hc
  rcases hc with h | h | h | h | h | h | h | h <;> (subst h; exact hb _)

/-- Witness for C5 at a concrete digit and a failed entropy read. -/
theorem claim5_witness :
    ('0' : Char) ∈ "0123456789abcdefghijklmnopqrstuv".toList ∧
    makeTempName "foo" none = Except.error Err.randRead :=
  ⟨(claim5_tempname_amended "foo" rz).2.2.1 '0' (by decide),
   (claim5_tempname_amended "foo" rz).2.2.2⟩

/-! ## Claim C4: the aside name of the directory swap -/

/-- Claim C4 evaluated at the failing input: for the existing destination
`/tmp/t/dirname`, `renameToTemp` generates the aside name
`.#/tmp/t/dirname.original-00000000.tmp` (with the all-zero entropy read);
that name is a relative path whose parent directory is `.#/tmp/t`, not the
destination's parent `/tmp/t`, so the aside artifact does not lie beside
the destination and does not match `.#<basename>-<random>.tmp` under the
destination's directory. -/
theorem claim4_aside_name_eval :
    renameToTempName "/tmp/t/dirname" (some rz) =
      Except.ok ".#/tmp/t/dirname.original-00000000.tmp" ∧
    goDir ".#/tmp/t/dirname.original-00000000.tmp" = ".#/tmp/t" ∧
    goDir "/tmp/t/dirname" = "/tmp/t" ∧
    (".#/tmp/t" : String) ≠ "/tmp/t" := by decide

/-! ## Claim C6: order of the commit effects -/

/-- Counterexample for C6 as stated: committing a fresh file issues
sync-temp before close-temp, not close-temp before sync-temp. -/
theorem claim6_counterexample :
    (fileCommitW fsEx fEx0 allOkC).tr =
      [Eff.syncTemp, Eff.closeTemp, Eff.renameInto ".#foo-00000000.tmp" "foo",
       Eff.fsyncParent, Eff.closeParent] ∧
    (fileCommitW fsEx fEx0 allOkC).tr ≠
      [Eff.closeTemp, Eff.syncTemp, Eff.renameInto ".#foo-00000000.tmp" "foo",
       Eff.fsyncParent, Eff.closeParent] := by decide

/-- A fully successful commit from the initial state: the shared
computation behind the commit-order and end-to-end claims. -/
theorem fileCommitW_fresh_allOk (fs : Fs) (f : FileM) (h : f.st = 0) :
    fileCommitW fs f allOkC =
      ⟨Except.ok (), { f with st := 7, closeFn := CloseMode.committed },
       osRenameAt fs f.parentFd (goBase f.tempPath) (goBase f.origPath),
       [Eff.syncTemp, Eff.closeTemp,
        Eff.renameInto (goBase f.tempPath) (goBase f.origPath),
        Eff.fsyncParent, Eff.closeParent]⟩ := by
  obtain ⟨tp, op, pf, st, cf⟩ := f
  simp only at h
  subst h
  simp [fileCommitW, commitClosedBlock, commitPlacedBlock, commitSyncedBlock,
    stIs, stSet, allOkC, flagPlaced, flagClosed, flagSynced]

/-- Claim C6 (amended): for every `File` committed from the initial state
with every step succeeding, the effects occur in the ordered sequence
sync-temp, close-temp, rename-into-place, fsync-parent-directory (followed
by the parent handle close); all buffered writes are flushed and the
temporary handle closed before the rename, and the parent fsync follows the
rename. -/
theorem claim6_order_amended (fs : Fs) (f : FileM) (h : f.st = 0) :
    fileCommitW fs f allOkC =
      ⟨Except.ok (), { f with st := 7, closeFn := CloseMode.committed },
       osRenameAt fs f.parentFd (goBase f.tempPath) (goBase f.origPath),
       [Eff.syncTemp, Eff.closeTemp,
        Eff.renameInto (goBase f.tempPath) (goBase f.origPath),
        Eff.fsyncParent, Eff.closeParent]⟩ :=
  fileCommitW_fresh_allOk fs f h

/-- Witness for C6 at the concrete fresh file. -/
theorem claim6_witness :
    fileCommitW [] fEx0 allOkC =
      ⟨Except.ok (), { fEx0 with st := 7, closeFn := CloseMode.committed }, [],
       [Eff.syncTemp, Eff.closeTemp, Eff.renameInto ".#foo-00000000.tmp" "foo",
        Eff.fsyncParent, Eff.closeParent]⟩ :=
  (claim6_order_amended [] fEx0 rfl).trans (by decide)

/-! ## Claim C8: the creation retry loop -/

theorem createRetryLoop_exhaust (fuel : Nat) :
    ∀ (k : Nat) (att : Nat → AttemptR), (∀ j, j < fuel → att (k + j) = AttemptR.exist) →
      createRetryLoop att k fuel = Except.error Err.exhausted := by
  induction fuel with
  | zero => intro k att _; rfl
  | succ n ih =>
    intro k att h
    have h0 : att k = AttemptR.exist := by simpa using h 0 (by omega)
    have hrest : ∀ j, j < n → att (k + 1 + j) = AttemptR.exist := by
      intro j hj
      have := h (j + 1) (by omega)
      simpa [Nat.add_assoc, Nat.add_comm 1 j] using this
    simp [createRetryLoop, h0]
    exact ih (k + 1) att hrest

theorem createRetryLoop_first (i : Nat) :
    ∀ (fuel k : Nat) (att : Nat → AttemptR), i < fuel →
      (∀ j, j < i → att (k + j) = AttemptR.exist) →
      (att (k + i) = AttemptR.success → createRetryLoop att k fuel = Except.ok (k + i)) ∧
      (∀ e, att (k + i) = AttemptR.nameErr e → createRetryLoop att k fuel = Except.error e) ∧
      (∀ e, att (k + i) = AttemptR.osFail e →
        createRetryLoop att k fuel = Except.error (Err.osErr e)) := by
  induction i with
  | zero =>
    intro fuel k att hlt _
    obtain ⟨m, rfl⟩ : ∃ m, fuel = m + 1 := ⟨fuel - 1, by omega⟩
    refine ⟨?_, ?_, ?_⟩
    · intro hs; simp [createRetryLoop, show att k = AttemptR.success from by simpa using hs]
    · intro e hs; simp [createRetryLoop, show att k = AttemptR.nameErr e from by simpa using hs]
    · intro e hs; simp [createRetryLoop, show att k = AttemptR.osFail e from by simpa using hs]
  | succ n ih =>
    intro fuel k att hlt hpre
    obtain ⟨m, rfl⟩ : ∃ m, fuel = m + 1 := ⟨fuel - 1, by omega⟩
    have h0 : att k = AttemptR.exist := by simpa using hpre 0 (by omega)
    have hpre1 : ∀ j, j < n → att (k + 1 + j) = AttemptR.exist := by
      intro j hj
      have := hpre (j + 1) (by omega)
      simpa [Nat.add_assoc, Nat.add_comm 1 j] using this
    have hsh : k + 1 + n = k + (n + 1) := by omega
    have := ih m (k + 1) att (by omega) hpre1
    rw [hsh] at this
    refine ⟨?_, ?_, ?_⟩
    · intro hs; simp [createRetryLoop, h0]; exact this.1 hs
    · intro e hs; simp [createRetryLoop, h0]; exact this.2.1 e hs
    · intro e hs; simp [createRetryLoop, h0]; exact this.2.2 e hs

/-- Claim C8: both `CreateFile` and `CreateDir` run the same creation
retry loop (embedded as `createRetryLoop` with the source's budget of 1000
attempts): attempts failing with "name already exists" retry with a fresh
name, a name-generation failure or any other creation failure aborts
immediately and is surfaced, and 1000 exhausted attempts fail with
`ExhaustedError`. -/
theorem claim8_retry (att : Nat → AttemptR) :
    ((∀ i, i < 1000 → att i = AttemptR.exist) → createRetry att = Except.error Err.exhausted) ∧
    (∀ i, i < 1000 → (∀ j, j < i → att j = AttemptR.exist) →
      (att i = AttemptR.success → createRetry att = Except.ok i) ∧
      (∀ e, att i = AttemptR.nameErr e → createRetry att = Except.error e) ∧
      (∀ e, att i = AttemptR.osFail e → createRetry att = Except.error (Err.osErr e))) := by
  constructor
  · intro h
    exact createRetryLoop_exhaust 1000 0 att (by simpa using h)
  · intro i hi hpre
    have := createRetryLoop_first i 1000 0 att hi (by simpa using hpre)
    simpa using this

/-- Witness for C8: three collisions followed by a success commit the
fourth generated name. -/
theorem claim8_witness :
    createRetry (fun i => if i < 3 then AttemptR.exist else AttemptR.success) =
      Except.ok 3 := by
  have h := (claim8_retry (fun i => if i < 3 then AttemptR.exist else AttemptR.success)).2
    3 (by omega) (by intro j hj; simp [hj])
  exact h.1 (by simp)

/-! ## Claim C10: close runs its cleanup at most once -/

/-- Claim C10: the first `Close` on a live `File` or `Dir` installs the
dead-object handler unconditionally, so a second `Close` returns the
invalid-object error and reattempts nothing; if the cleanup itself failed,
the first call reports an error, the filesystem is unchanged and the
temporary artifact is leaked. -/
theorem claim10_close_once (fs : Fs) (f : FileM) (o o2 : CloseOutcomes)
    (d : DirM) (rR rR2 : OsResult)
    (hf : f.closeFn = CloseMode.uncommitted ∨ f.closeFn = CloseMode.uncommittedAfterSync)
    (hd : d.closeFn = DirCloseMode.uncommitted) :
    ((fileCloseW fs f o).f.closeFn = CloseMode.againError ∧
     fileCloseW (fileCloseW fs f o).fs (fileCloseW fs f o).f o2 =
       ⟨Except.error Err.invalid, (fileCloseW fs f o).f, (fileCloseW fs f o).fs, []⟩ ∧
     (∀ e, o.removeR = OsResult.fail e →
       (∃ err, (fileCloseW fs f o).res = Except.error err) ∧ (fileCloseW fs f o).fs = fs)) ∧
    ((dirCloseW fs d rR).d.closeFn = DirCloseMode.againError ∧
     dirCloseW (dirCloseW fs d rR).fs (dirCloseW fs d rR).d rR2 =
       ⟨Except.error Err.invalid, (dirCloseW fs d rR).d, (dirCloseW fs d rR).fs, []⟩ ∧
     (∀ e, rR = OsResult.fail e →
       (∃ err, (dirCloseW fs d rR).res = Except.error err) ∧ (dirCloseW fs d rR).fs = fs)) := by
  obtain ⟨tp, op, pf, st, cf⟩ := f
  obtain ⟨tpd, opd, cfd, icd⟩ := d
  simp only at hf hd
  subst hd
  rcases o with ⟨cR, rmR⟩
  constructor
  · rcases hf with h | h <;> subst h <;>
      rcases cR with _ | e1 <;> rcases rmR with _ | e2 <;>
        simp [fileCloseW, joinedRes]
  · rcases rR with _ | e3 <;> simp [dirCloseW]

/-- Witness for C10: a failing `os.Remove` leaks the temporary artifact
for both a file and a directory. -/
theorem claim10_witness :
    (fileCloseW fsEx fEx0 ⟨OsResult.ok, OsResult.fail ⟨5⟩⟩).fs = fsEx ∧
    (dirCloseW fsEx dEx0 (OsResult.fail ⟨5⟩)).fs = fsEx := by
  have h := claim10_close_once fsEx fEx0 ⟨OsResult.ok, OsResult.fail ⟨5⟩⟩ allOkCl
    dEx0 (OsResult.fail ⟨5⟩) OsResult.ok (Or.inl rfl) rfl
  exact ⟨(h.1.2.2 ⟨5⟩ rfl).2, (h.2.2.2 ⟨5⟩ rfl).2⟩

/-! ## Claim C7: close semantics per state -/

/-- Counterexample for C7 as stated: closing a fresh uncommitted `File`
closes the handle and removes the temporary path but never closes the
parent directory handle, although the claim says the parent handle is
removed. -/
theorem claim7_counterexample :
    (fileCloseW fsEx fEx0 allOkCl).tr =
      [Eff.closeHandle, Eff.removeTemp "/tmp/.#foo-00000000.tmp"] ∧
    Eff.closeParent ∉ (fileCloseW fsEx fEx0 allOkCl).tr := by decide

/-- Claim C7 (amended): `Close` before any step beyond `closed` removes the
temporary artifact (closing the handle if still open and removing the
temporary path) while leaving the original path untouched, but does not
close the parent directory handle; once `placed` is set (handler
`committed`), `Close` succeeds without touching the filesystem; and any
`Close` after either of these returns `AlreadyClosedError`.  The same holds
for `Dir`, whose uncommitted close removes the whole temporary tree. -/
theorem claim7_close_amended (fs : Fs) (f : FileM) (d : DirM) :
    (f.closeFn = CloseMode.uncommitted →
      fileCloseW fs f allOkCl =
        ⟨Except.ok (), { f with closeFn := CloseMode.againError },
         fsRemove fs f.tempPath, [Eff.closeHandle, Eff.removeTemp f.tempPath]⟩ ∧
      fsLookup (fileCloseW fs f allOkCl).fs f.tempPath = none ∧
      (f.origPath ≠ f.tempPath →
        fsLookup (fileCloseW fs f allOkCl).fs f.origPath = fsLookup fs f.origPath)) ∧
    (f.closeFn = CloseMode.uncommittedAfterSync →
      fileCloseW fs f allOkCl =
        ⟨Except.ok (), { f with closeFn := CloseMode.againError },
         fsRemove fs f.tempPath, [Eff.removeTemp f.tempPath]⟩) ∧
    (f.closeFn = CloseMode.committed →
      fileCloseW fs f allOkCl =
        ⟨Except.ok (), { f with closeFn := CloseMode.againError }, fs, []⟩) ∧
    (f.closeFn = CloseMode.againError →
      ∀ o, fileCloseW fs f o = ⟨Except.error Err.invalid, f, fs, []⟩) ∧
    (d.closeFn = DirCloseMode.uncommitted →
      dirCloseW fs d OsResult.ok =
        ⟨Except.ok (), { d with closeFn := DirCloseMode.againError },
         fsRemoveAll fs d.tempPath, [Eff.removeAllTemp d.tempPath]⟩ ∧
      (pathInTree d.tempPath d.origPath = false →
        fsLookup (dirCloseW fs d OsResult.ok).fs d.origPath = fsLookup fs d.origPath)) ∧
    (d.closeFn = DirCloseMode.committed →
      dirCloseW fs d OsResult.ok =
        ⟨Except.ok (), { d with closeFn := DirCloseMode.againError }, fs, []⟩) ∧
    (d.closeFn = DirCloseMode.againError →
      ∀ rr, dirCloseW fs d rr = ⟨Except.error Err.invalid, d, fs, []⟩) := by
  obtain ⟨tp, op, pf, st, cf⟩ := f
  obtain ⟨tpd, opd, cfd, icd⟩ := d
  refine ⟨?_, ?_, ?_, ?_, ?_, ?_, ?_⟩
  · intro h; simp only at h; subst h
    refine ⟨by simp [fileCloseW, allOkCl, joinedRes], ?_, ?_⟩
    · simpa [fileCloseW, allOkCl, joinedRes] using fsLookup_fsRemove_self fs tp
    · intro hne
      simpa [fileCloseW, allOkCl, joinedRes] using fsLookup_fsRemove_ne fs tp op hne
  · intro h; simp only at h; subst h
    simp [fileCloseW, allOkCl]
  · intro h; simp only at h; subst h
    simp [fileCloseW]
  · intro h; simp only at h; subst h
    intro o; simp [fileCloseW]
  · intro h; simp only at h; subst h
    refine ⟨by simp [dirCloseW], ?_⟩
    intro hout
    simpa [dirCloseW] using fsLookup_fsRemoveAll_out fs tpd opd hout
  · intro h; simp only at h; subst h
    simp [dirCloseW]
  · intro h; simp only at h; subst h
    intro rr; simp [dirCloseW]

/-- Witness for C7 at a concrete uncommitted file holding its temporary
artifact. -/
theorem claim7_witness :
    fileCloseW [("/tmp/.#foo-00000000.tmp", "x")] fEx0 allOkCl =
      ⟨Except.ok (), { fEx0 with closeFn := CloseMode.againError }, [],
       [Eff.closeHandle, Eff.removeTemp "/tmp/.#foo-00000000.tmp"]⟩ ∧
    fsLookup (fileCloseW [("/tmp/.#foo-00000000.tmp", "x")] fEx0 allOkCl).fs
      "/tmp/.#foo-00000000.tmp" = none :=
  ⟨(((claim7_close_amended [("/tmp/.#foo-00000000.tmp", "x")] fEx0 dEx0).1 rfl).1).trans
      (by decide),
   ((claim7_close_amended [("/tmp/.#foo-00000000.tmp", "x")] fEx0 dEx0).1 rfl).2.1⟩

/-! ## Claim C2: resumable commit -/

theorem stIs_stSet_self (s a : Nat) : stIs (stSet s a) a = true := by
  have h : (s ||| a) &&& a = a := by
    apply Nat.eq_of_testBit_eq
    intro i
    rw [Nat.testBit_land, Nat.testBit_lor]
    cases h1 : s.testBit i <;> cases h2 : a.testBit i <;> simp
  simp [stIs, stSet, h]

theorem stIs_stSet_other (s a b : Nat) (hab : a &&& b = 0) :
    stIs (stSet s a) b = stIs s b := by
  have h : (s ||| a) &&& b = s &&& b := by
    apply Nat.eq_of_testBit_eq
    intro i
    have h0 : (a &&& b).testBit i = false := by rw [hab]; simp
    rw [Nat.testBit_land] at h0
    rw [Nat.testBit_land, Nat.testBit_lor, Nat.testBit_land]
    cases h1 : s.testBit i <;> cases h2 : a.testBit i <;> cases h3 : b.testBit i <;> simp_all
  simp [stIs, stSet, h]

theorem stIs_setClosed_placed (s : Nat) :
    stIs (stSet s flagClosed) flagPlaced = stIs s flagPlaced :=
  stIs_stSet_other s flagClosed flagPlaced (by decide)

theorem stIs_setClosed_synced (s : Nat) :
    stIs (stSet s flagClosed) flagSynced = stIs s flagSynced :=
  stIs_stSet_other s flagClosed flagSynced (by decide)

theorem stIs_setPlaced_closed (s : Nat) :
    stIs (stSet s flagPlaced) flagClosed = stIs s flagClosed :=
  stIs_stSet_other s flagPlaced flagClosed (by decide)

theorem stIs_setPlaced_synced (s : Nat) :
    stIs (stSet s flagPlaced) flagSynced = stIs s flagSynced :=
  stIs_stSet_other s flagPlaced flagSynced (by decide)

theorem stIs_setSynced_closed (s : Nat) :
    stIs (stSet s flagSynced) flagClosed = stIs s flagClosed :=
  stIs_stSet_other s flagSynced flagClosed (by decide)

theorem stIs_setSynced_placed (s : Nat) :
    stIs (stSet s flagSynced) flagPlaced = stIs s flagPlaced :=
  stIs_stSet_other s flagSynced flagPlaced (by decide)

set_option maxHeartbeats 1000000 in
/-- Counterexample for C2 as stated: with the temp-file sync succeeding
and the temp-file close failing, `Commit` returns a wrapped error without
setting any flag, and the retried `Commit` re-executes the sync-temp step
even though that step already succeeded. -/
theorem claim2_counterexample :
    (fileCommitW fsEx fEx0
        ⟨OsResult.ok, OsResult.fail ⟨5⟩, OsResult.ok, OsResult.ok, OsResult.ok⟩).res =
      Except.error (Err.commitWrap (Err.osErr ⟨5⟩)) ∧
    (fileCommitW fsEx fEx0
        ⟨OsResult.ok, OsResult.fail ⟨5⟩, OsResult.ok, OsResult.ok, OsResult.ok⟩).f.st = 0 ∧
    Eff.syncTemp ∈ (fileCommitW fsEx fEx0
        ⟨OsResult.ok, OsResult.fail ⟨5⟩, OsResult.ok, OsResult.ok, OsResult.ok⟩).tr ∧
    Eff.syncTemp ∈
      (fileCommitW
        (fileCommitW fsEx fEx0
          ⟨OsResult.ok, OsResult.fail ⟨5⟩, OsResult.ok, OsResult.ok, OsResult.ok⟩).fs
        (fileCommitW fsEx fEx0
          ⟨OsResult.ok, OsResult.fail ⟨5⟩, OsResult.ok, OsResult.ok, OsResult.ok⟩).f
        allOkC).tr := by decide

set_option maxHeartbeats 1600000 in
/-- Claim C2 (amended): whenever a step of `Commit` fails, `Commit` returns
a wrapped error; a state flag becomes set only when its whole block
completed (`closed` needs sync and close of the temp file, `placed` needs
the rename, `synced` needs the parent fsync and close), flags are never
cleared, and a subsequent `Commit` call never re-executes a block whose
flag is set (no sync-temp/close-temp once `closed`, no rename once
`placed`, nothing at all once `synced`); within an incomplete block the
idempotent first sub-step (sync before close, fsync before parent close)
is re-executed. -/
theorem claim2_resume_amended (fs : Fs) (f : FileM) (o : CommitOutcomes) :
    (stIs f.st flagSynced = false → ∀ e, (fileCommitW fs f o).res = Except.error e →
      ∃ e2, e = Err.commitWrap e2) ∧
    (stIs (fileCommitW fs f o).f.st flagClosed = true →
      stIs f.st flagClosed = true ∨ (o.syncR = OsResult.ok ∧ o.closeTempR = OsResult.ok)) ∧
    (stIs (fileCommitW fs f o).f.st flagPlaced = true →
      stIs f.st flagPlaced = true ∨ o.renameR = OsResult.ok) ∧
    (stIs (fileCommitW fs f o).f.st flagSynced = true →
      stIs f.st flagSynced = true ∨ (o.fsyncR = OsResult.ok ∧ o.closeParentR = OsResult.ok)) ∧
    (stIs f.st flagClosed = true → stIs (fileCommitW fs f o).f.st flagClosed = true) ∧
    (stIs f.st flagPlaced = true → stIs (fileCommitW fs f o).f.st flagPlaced = true) ∧
    (stIs f.st flagClosed = true →
      Eff.syncTemp ∉ (fileCommitW fs f o).tr ∧ Eff.closeTemp ∉ (fileCommitW fs f o).tr) ∧
    (stIs f.st flagPlaced = true →
      ∀ a b, Eff.renameInto a b ∉ (fileCommitW fs f o).tr) ∧
    (stIs f.st flagSynced = true → (fileCommitW fs f o).tr = []) := by
  obtain ⟨tp, op, pf, st, cf⟩ := f
  rcases o with ⟨sR, cR, rR, fR, pR⟩
  simp only
  cases hS : stIs st flagSynced with
  | true =>
    simp [fileCommitW, hS]
    tauto
  | false =>
    cases hC : stIs st flagClosed <;> cases hP : stIs st flagPlaced <;>
      rcases sR with _ | e1 <;> rcases cR with _ | e2 <;> rcases rR with _ | e3 <;>
      rcases fR with _ | e4 <;> rcases pR with _ | e5 <;>
      simp [fileCommitW, commitClosedBlock, commitPlacedBlock, commitSyncedBlock, hS, hC, hP,
        stIs_stSet_self, stIs_setClosed_placed, stIs_setClosed_synced,
        stIs_setPlaced_closed, stIs_setPlaced_synced,
        stIs_setSynced_closed, stIs_setSynced_placed]

/-- Witness for C2: once `closed` is set, a retried commit whose rename
fails does not re-execute the sync-temp or close-temp steps. -/
theorem claim2_witness :
    Eff.syncTemp ∉
      (fileCommitW fsEx ⟨"/tmp/.#foo-00000000.tmp", "/tmp/foo", "/tmp", 2, CloseMode.uncommitted⟩
        ⟨OsResult.ok, OsResult.ok, OsResult.fail ⟨7⟩, OsResult.ok, OsResult.ok⟩).tr ∧
    Eff.closeTemp ∉
      (fileCommitW fsEx ⟨"/tmp/.#foo-00000000.tmp", "/tmp/foo", "/tmp", 2, CloseMode.uncommitted⟩
        ⟨OsResult.ok, OsResult.ok, OsResult.fail ⟨7⟩, OsResult.ok, OsResult.ok⟩).tr :=
  (claim2_resume_amended fsEx
    ⟨"/tmp/.#foo-00000000.tmp", "/tmp/foo", "/tmp", 2, CloseMode.uncommitted⟩
    ⟨OsResult.ok, OsResult.ok, OsResult.fail ⟨7⟩, OsResult.ok, OsResult.ok⟩).2.2.2.2.2.2.1
    (by decide)

/-! ## Claim C1: no premature visibility, new content only after commit -/

theorem pathInTree_key (t s : String) :
    pathInTree t ((t ++ String.mk [sepChar]) ++ s) = true := by
  have h : (t ++ String.mk [sepChar]).data <+: ((t ++ String.mk [sepChar]) ++ s).data := by
    rw [String.data_append]
    exact List.prefix_append _ _
  unfold pathInTree
  rw [Bool.or_eq_true]
  right
  exact List.isPrefixOf_iff_prefix.mpr h

theorem strApp_cancel (a : String) (x y : List Char)
    (h : a ++ String.mk x = a ++ String.mk y) : x = y := by
  have hd := congrArg String.data h
  rw [String.data_append, String.data_append] at hd
  exact List.append_cancel_left hd

theorem key_data (t s : String) :
    ((t ++ String.mk [sepChar]) ++ s).data = t.data ++ (sepChar :: s.data) := by
  rw [String.data_append, String.data_append]
  simp

theorem key_mk (t s : String) :
    (t ++ String.mk [sepChar]) ++ s = t ++ String.mk (sepChar :: s.data) := by
  apply String.ext
  rw [key_data, String.data_append]

theorem key_length (t s : String) :
    ((t ++ String.mk [sepChar]) ++ s).length = t.length + 1 + s.length := by
  show ((t ++ String.mk [sepChar]) ++ s).data.length = t.data.length + 1 + s.data.length
  rw [key_data]
  simp
  omega

theorem pathInTree_true_cases (root p : String) (h : pathInTree root p = true) :
    p = root ∨ ∃ u : List Char, p.data = root.data ++ (sepChar :: u) := by
  unfold pathInTree at h
  rw [Bool.or_eq_true] at h
  rcases h with h1 | h2
  · left; exact of_decide_eq_true h1
  · right
    obtain ⟨u, hu⟩ := List.isPrefixOf_iff_prefix.mp h2
    refine ⟨u, ?_⟩
    rw [← hu, String.data_append]
    simp

theorem applyDirOps_lookup_out (dops : List DOp) (fs : Fs) (tmp q : String)
    (h : pathInTree tmp q = false) :
    fsLookup (applyDirOps fs tmp dops) q = fsLookup fs q := by
  induction dops generalizing fs with
  | nil => rfl
  | cons op rest ih =>
    cases op with
    | dwr s c =>
      rw [show applyDirOps fs tmp (DOp.dwr s c :: rest) =
        applyDirOps (fsSet fs ((tmp ++ String.mk [sepChar]) ++ s) c) tmp rest from rfl]
      rw [ih _]
      apply fsLookup_fsSet_ne
      intro he
      rw [he, pathInTree_key] at h
      cases h

theorem fsLookup_cons_ne (k c : String) (fs : Fs) (q : String) (h : ¬k = q) :
    fsLookup ((k, c) :: fs) q = fsLookup fs q := by
  simp [fsLookup, List.find?, h]

theorem fsLookup_cons_self2 (k c : String) (fs : Fs) (q : String) (h : k = q) :
    fsLookup ((k, c) :: fs) q = some c := by
  subst h
  simp [fsLookup, List.find?]

theorem dirMoveFs_lookup_moved (fs : Fs) (src dst s : String)
    (hks : pathInTree dst ((src ++ String.mk [sepChar]) ++ s) = false) :
    fsLookup (dirMoveFs fs src dst) ((dst ++ String.mk [sepChar]) ++ s) =
      fsLookup fs ((src ++ String.mk [sepChar]) ++ s) := by
  induction fs with
  | nil => rfl
  | cons e fs ih =>
    obtain ⟨p, c⟩ := e
    by_cases hdst : pathInTree dst p = true
    · have hne : ¬p = (src ++ String.mk [sepChar]) ++ s := by
        intro he
        rw [he, hks] at hdst
        cases hdst
      have hstep : dirMoveFs ((p, c) :: fs) src dst = dirMoveFs fs src dst := by
        simp [dirMoveFs, List.filter_cons, hdst]
      rw [hstep, ih, fsLookup_cons_ne p c fs _ hne]
    · have hdst2 : pathInTree dst p = false := by simpa using hdst
      have hstep : dirMoveFs ((p, c) :: fs) src dst =
          (if pathInTree src p
            then (dst ++ String.mk (p.data.drop src.data.length), c) else (p, c)) ::
            dirMoveFs fs src dst := by
        simp [dirMoveFs, List.filter_cons, hdst2]
      rw [hstep]
      by_cases hsrc : pathInTree src p = true
      · rw [if_pos hsrc]
        rcases pathInTree_true_cases src p hsrc with hpe | ⟨u, hu⟩
        · subst hpe
          have hdropn : p.data.drop p.data.length = ([] : List Char) := List.drop_length _
          have hk1 : ¬dst ++ String.mk (p.data.drop p.data.length) =
              (dst ++ String.mk [sepChar]) ++ s := by
            intro he
            rw [hdropn, key_mk] at he
            exact List.noConfusion (strApp_cancel dst _ _ he)
          have hk2 : ¬p = (p ++ String.mk [sepChar]) ++ s := by
            intro he
            have hd := congrArg String.length he
            rw [key_length] at hd
            omega
          rw [fsLookup_cons_ne _ c _ _ hk1, fsLookup_cons_ne p c fs _ hk2, ih]
        · have hdrop : p.data.drop src.data.length = sepChar :: u := by
            rw [hu]
            exact List.drop_left' rfl
          by_cases hkey : u = s.data
          · have hpk : p = (src ++ String.mk [sepChar]) ++ s := by
              apply String.ext
              rw [hu, hkey, key_data]
            have hmk : dst ++ String.mk (p.data.drop src.data.length) =
                (dst ++ String.mk [sepChar]) ++ s := by
              rw [hdrop, hkey, key_mk]
            rw [fsLookup_cons_self2 _ c _ _ hmk, fsLookup_cons_self2 p c fs _ hpk]
          · have hpk : ¬p = (src ++ String.mk [sepChar]) ++ s := by
              intro he
              apply hkey
              have hd := congrArg String.data he
              rw [hu, key_data] at hd
              have hc := List.append_cancel_left hd
              injection hc
            have hmk : ¬dst ++ String.mk (p.data.drop src.data.length) =
                (dst ++ String.mk [sepChar]) ++ s := by
              intro he
              apply hkey
              rw [hdrop, key_mk] at he
              have hc := strApp_cancel dst _ _ he
              injection hc
            rw [fsLookup_cons_ne _ c _ _ hmk, fsLookup_cons_ne p c fs _ hpk, ih]
      · rw [if_neg hsrc]
        have hp1 : ¬p = (dst ++ String.mk [sepChar]) ++ s := by
          intro he
          rw [he, pathInTree_key] at hdst2
          cases hdst2
        have hp2 : ¬p = (src ++ String.mk [sepChar]) ++ s := by
          intro he
          exact hsrc (he ▸ pathInTree_key src s)
        rw [fsLookup_cons_ne p c _ _ hp1, fsLookup_cons_ne p c fs _ hp2, ih]

theorem createFileLoopFs_ok (parentPath origName origPath : String)
    (rnds : Nat → Option Rnd5) :
    ∀ (fuel i : Nat) (fs : Fs) (f : FileM) (fs1 : Fs),
      createFileLoopFs parentPath origName origPath fs rnds i fuel = Except.ok (f, fs1) →
      f.origPath = origPath ∧ f.parentFd = parentPath ∧ f.st = 0 ∧
      f.closeFn = CloseMode.uncommitted ∧ fsLookup fs f.tempPath = none ∧
      fs1 = fsSet fs f.tempPath "" := by
  intro fuel
  induction fuel with
  | zero => intro i fs f fs1 h; simp [createFileLoopFs] at h
  | succ n ih =>
    intro i fs f fs1 h
    simp only [createFileLoopFs] at h
    cases hname : makeTempName origName (rnds i) with
    | error e => simp [hname] at h
    | ok tempName =>
      simp only [hname] at h
      cases hlook : fsLookup fs (goJoin parentPath tempName) with
      | some c =>
        simp only [hlook] at h
        exact ih (i + 1) fs f fs1 h
      | none =>
        simp only [hlook, Except.ok.injEq, Prod.mk.injEq] at h
        obtain ⟨h1, h2⟩ := h
        subst h1
        subst h2
        exact ⟨rfl, rfl, rfl, rfl, hlook, rfl⟩

/-- Claim C1: after a successful `CreateFile(origPath)` and before
`Commit`, the content read at the original path is exactly what it was
before creation, no matter how many `Write`/`Sync` calls are applied to the
temporary handle (in particular the original path never shows the
temporary artifact's content); after a fully successful `Commit`, reading
the original path returns exactly the written data, and the temporary path
is gone.  The path-algebra hypotheses state that the generated temporary
path differs from the original and that both resolve against the parent
handle to themselves.  The final conjunct states the same for a directory
created by `CreateDir`: mutations under the temporary directory leave the
original path (and everything outside the temporary tree) unchanged until
`Commit`, a successful `Commit` succeeds from the fresh state, and
afterwards reading any path under the original directory returns exactly
what was written at the corresponding path under the temporary
directory. -/
theorem claim1_no_premature_visibility (fs : Fs) (origPath : String)
    (rnds : Nat → Option Rnd5) (f : FileM) (fs1 : Fs)
    (hok : createFileFs fs origPath rnds = Except.ok (f, fs1))
    (hne : f.tempPath ≠ origPath)
    (htp : goJoin f.parentFd (goBase f.tempPath) = f.tempPath)
    (hop : goJoin f.parentFd (goBase origPath) = origPath)
    (ops : List WOp) :
    fsLookup (applyOps fs1 f.tempPath ops) origPath = fsLookup fs origPath ∧
    (fileCommitW (applyOps fs1 f.tempPath ops) f allOkC).res = Except.ok () ∧
    fsLookup (fileCommitW (applyOps fs1 f.tempPath ops) f allOkC).fs origPath =
      some (writesOf ops) ∧
    fsLookup (fileCommitW (applyOps fs1 f.tempPath ops) f allOkC).fs f.tempPath = none ∧
    (∀ (fsd : Fs) (d : DirM) (dops : List DOp),
      d.isCommitted = false →
      pathInTree d.tempPath d.origPath = false →
      fsLookup (applyDirOps fsd d.tempPath dops) d.origPath = fsLookup fsd d.origPath ∧
      (∀ q, pathInTree d.tempPath q = false →
        fsLookup (applyDirOps fsd d.tempPath dops) q = fsLookup fsd q) ∧
      (dirCommitW (applyDirOps fsd d.tempPath dops) d OsResult.ok).res = Except.ok () ∧
      (∀ s, pathInTree d.origPath ((d.tempPath ++ String.mk [sepChar]) ++ s) = false →
        fsLookup (dirCommitW (applyDirOps fsd d.tempPath dops) d OsResult.ok).fs
            ((d.origPath ++ String.mk [sepChar]) ++ s) =
          fsLookup (applyDirOps fsd d.tempPath dops)
            ((d.tempPath ++ String.mk [sepChar]) ++ s))) := by
  obtain ⟨ho, hp, hst, hcf, hlk, hfs1⟩ :=
    createFileLoopFs_ok (goDir origPath) (goBase origPath) origPath rnds 1000 0 fs f fs1 hok
  have htemp : fsLookup (applyOps fs1 f.tempPath ops) f.tempPath = some (writesOf ops) := by
    have hbase : fsLookup fs1 f.tempPath = some "" := by
      rw [hfs1]; exact fsLookup_fsSet_self fs _ ""
    have h2 := applyOps_lookup_self ops fs1 f.tempPath "" hbase
    simpa using h2
  have horig : fsLookup (applyOps fs1 f.tempPath ops) origPath = fsLookup fs origPath := by
    rw [applyOps_lookup_ne ops fs1 f.tempPath origPath (Ne.symm hne), hfs1,
      fsLookup_fsSet_ne fs f.tempPath "" origPath (Ne.symm hne)]
  have hcommit := fileCommitW_fresh_allOk (applyOps fs1 f.tempPath ops) f hst
  have hfs2 : (fileCommitW (applyOps fs1 f.tempPath ops) f allOkC).fs =
      fsSet (fsRemove (applyOps fs1 f.tempPath ops) f.tempPath) origPath (writesOf ops) := by
    rw [hcommit]
    show osRenameAt (applyOps fs1 f.tempPath ops) f.parentFd
      (goBase f.tempPath) (goBase f.origPath) = _
    rw [osRenameAt, ho, htp, hop]
    simp only [osRename, htemp]
  refine ⟨horig, by rw [hcommit], ?_, ?_, ?_⟩
  · rw [hfs2]
    exact fsLookup_fsSet_self _ _ _
  · rw [hfs2, fsLookup_fsSet_ne _ _ _ _ hne, fsLookup_fsRemove_self]
  · intro fsd d dops hdc hnt
    have hcommitd : dirCommitW (applyDirOps fsd d.tempPath dops) d OsResult.ok =
        ⟨Except.ok (), { d with closeFn := DirCloseMode.committed, isCommitted := true },
         dirMoveFs (applyDirOps fsd d.tempPath dops) d.tempPath d.origPath,
         [Eff.moveDir d.tempPath d.origPath]⟩ := by
      simp [dirCommitW, hdc]
    refine ⟨applyDirOps_lookup_out dops fsd d.tempPath d.origPath hnt,
            fun q hq => applyDirOps_lookup_out dops fsd d.tempPath q hq,
            by rw [hcommitd], ?_⟩
    intro s hs
    rw [hcommitd]
    exact dirMoveFs_lookup_moved (applyDirOps fsd d.tempPath dops) d.tempPath d.origPath s hs

/-- Witness for C1: the spec's overwrite scenario.  `/tmp/foo` holds
thirteen bytes of old content; create, write new content, sync; the old
content is still read back; commit; the new content is read back.  For the
directory case, a file `foo` with content `baa` written under the
temporary directory is invisible at `/tmp/dirname` before the commit and
read back at `/tmp/dirname/foo` afterwards. -/
theorem claim1_witness :
    fsLookup
      (applyOps (fsSet fsEx "/tmp/.#foo-00000000.tmp" "") "/tmp/.#foo-00000000.tmp"
        [WOp.wr "Foobar!\n", WOp.syncOp]) "/tmp/foo" = some "Hello World!\n" ∧
    (fileCommitW
      (applyOps (fsSet fsEx "/tmp/.#foo-00000000.tmp" "") "/tmp/.#foo-00000000.tmp"
        [WOp.wr "Foobar!\n", WOp.syncOp]) fEx0 allOkC).res = Except.ok () ∧
    fsLookup (fileCommitW (applyOps (fsSet fsEx "/tmp/.#foo-00000000.tmp" "")
        "/tmp/.#foo-00000000.tmp" [WOp.wr "Foobar!\n", WOp.syncOp]) fEx0 allOkC).fs "/tmp/foo" =
      some (writesOf [WOp.wr "Foobar!\n", WOp.syncOp]) ∧
    fsLookup (applyDirOps [] "/tmp/.#dirname-00000000.tmp" [DOp.dwr "foo" "baa"])
      "/tmp/dirname" = none ∧
    (dirCommitW (applyDirOps [] "/tmp/.#dirname-00000000.tmp" [DOp.dwr "foo" "baa"])
      dEx0 OsResult.ok).res = Except.ok () ∧
    fsLookup (dirCommitW (applyDirOps [] "/tmp/.#dirname-00000000.tmp" [DOp.dwr "foo" "baa"])
        dEx0 OsResult.ok).fs
      (("/tmp/dirname" ++ String.mk [sepChar]) ++ "foo") = some "baa" := by
  have h := claim1_no_premature_visibility fsEx "/tmp/foo" (fun _ => some rz) fEx0
    (fsSet fsEx "/tmp/.#foo-00000000.tmp" "") (by decide) (by decide) (by decide) (by decide)
    [WOp.wr "Foobar!\n", WOp.syncOp]
  have hd := h.2.2.2.2 [] dEx0 [DOp.dwr "foo" "baa"] rfl (by decide)
  exact ⟨h.1.trans (by decide), h.2.1, h.2.2.1,
    hd.1.trans (by decide), hd.2.2.1, (hd.2.2.2 "foo" (by decide)).trans (by decide)⟩

/-! ## Claim C9: deriving a temporary path -/

theorem btLoop_spec (out : List Char) (dotdot : Nat) :
    ∀ w0, dotdot ≤ w0 →
      dotdot ≤ btLoop out dotdot w0 ∧ btLoop out dotdot w0 ≤ w0 ∧
      (btLoop out dotdot w0 = dotdot ∨ out.getD (btLoop out dotdot w0) ' ' = sepChar) := by
  intro w0
  induction w0 with
  | zero =>
    intro h
    have hdd : dotdot = 0 := by omega
    simp [btLoop, hdd]
  | succ w ih =>
    intro h
    rw [btLoop]
    by_cases hc : dotdot < w + 1 ∧ out.getD (w + 1) ' ' ≠ sepChar
    · rw [if_pos hc]
      have hih := ih (by omega)
      exact ⟨hih.1, by omega, hih.2.2⟩
    · rw [if_neg hc]
      refine ⟨h, Nat.le_refl _, ?_⟩
      by_cases h1 : dotdot < w + 1
      · right
        by_contra h2
        exact hc ⟨h1, h2⟩
      · left; omega

theorem chain'_of_all_ne (l : List Char) (h : ∀ x ∈ l, x ≠ sepChar) :
    List.Chain' noTwoSep l := by
  rw [List.chain'_iff_get]
  intro i hi
  exact Or.inr (h _ (List.get_mem l _ _))

theorem getLast?_take_eq (out : List Char) (w : Nat) (h1 : 1 ≤ w) (h2 : w ≤ out.length) :
    (out.take w).getLast? = out[w - 1]? := by
  rw [List.getLast?_eq_getElem?]
  have hl : (out.take w).length = w := by simp [List.length_take]; omega
  rw [hl]
  exact List.getElem?_take_of_lt (by omega)

theorem chain'_adj_left (l : List Char) (h : List.Chain' noTwoSep l) (i : Nat)
    (h1 : l[i + 1]? = some sepChar) : l[i]? ≠ some sepChar := by
  intro h2
  have hi1 : i + 1 < l.length := by
    by_contra hx
    rw [List.getElem?_eq_none (by omega)] at h1
    cases h1
  rw [List.chain'_iff_get] at h
  have hR := h i (by omega)
  simp only [List.get_eq_getElem] at hR
  rw [List.getElem?_eq_getElem (by omega)] at h1 h2
  rcases hR with hL | hL
  · exact hL (Option.some.inj h2)
  · exact hL (Option.some.inj h1)

theorem backtrack_inv (rooted : Bool) (dotdot : Nat) (out : List Char)
    (hinv : cleanInv rooted dotdot out) (h4 : dotdot < out.length) :
    cleanInv rooted dotdot (backtrack out dotdot) := by
  obtain ⟨hch, hlast, hdd, hroot, hrel⟩ := hinv
  obtain ⟨hw1, hw2, hw3⟩ := btLoop_spec out dotdot (out.length - 1) (by omega)
  generalize hgen : btLoop out dotdot (out.length - 1) = w at hw1 hw2 hw3
  have hwlen : w ≤ out.length := by omega
  have hbt : backtrack out dotdot = out.take w := by rw [backtrack, hgen]
  rw [hbt]
  have hpre : List.Chain' noTwoSep (out.take w) :=
    List.Chain'.prefix hch (List.take_prefix w out)
  refine ⟨hpre, ?_, ?_, ?_, ?_⟩
  · by_cases hw0 : w = 0
    · right; rw [hw0]; simp
    · rcases hw3 with hweq | hsep
      · cases rooted with
        | true =>
          obtain ⟨hd1, hh⟩ := hroot rfl
          left
          cases out with
          | nil => simp at hh
          | cons a t =>
            simp only [List.head?_cons, Option.some.injEq] at hh
            subst hh
            rw [hweq, hd1]
            rfl
        | false =>
          obtain ⟨hh, hddc⟩ := hrel rfl
          rcases hddc with hd0 | ⟨hd1, hdot⟩
          · right; rw [hweq, hd0]; simp
          · right
            rw [getLast?_take_eq out w (by omega) hwlen, hweq, hdot]
            decide
      · right
        have hwlt : w < out.length := by omega
        have hw' : out[w]? = some sepChar := by
          rw [List.getD_eq_getElem?_getD, List.getElem?_eq_getElem hwlt] at hsep
          rw [List.getElem?_eq_getElem hwlt]
          simpa using hsep
        have hprev : out[w - 1]? ≠ some sepChar :=
          chain'_adj_left out hch (w - 1) (by rw [show w - 1 + 1 = w by omega]; exact hw')
        rw [getLast?_take_eq out w (by omega) hwlen]
        exact hprev
  · have hlt : (out.take w).length = w := by simp [List.length_take]; omega
    rw [hlt]
    exact hw1
  · intro hr
    obtain ⟨hd1, hh⟩ := hroot hr
    refine ⟨hd1, ?_⟩
    cases out with
    | nil => simp at hh
    | cons a t =>
      obtain ⟨w', rfl⟩ : ∃ w', w = w' + 1 := ⟨w - 1, by omega⟩
      simp only [List.take_succ_cons, List.head?_cons]
      exact hh
  · intro hr
    obtain ⟨hh, hddc⟩ := hrel hr
    constructor
    · cases out with
      | nil => simp
      | cons a t =>
        cases w with
        | zero => simp
        | succ w' =>
          simp only [List.take_succ_cons, List.head?_cons]
          simpa using hh
    · rcases hddc with hd0 | ⟨hd1, hdot⟩
      · exact Or.inl hd0
      · refine Or.inr ⟨hd1, ?_⟩
        rw [List.getElem?_take_of_lt (by omega)]
        exact hdot

theorem ddAppend_inv_nil : cleanInv false 2 ['.', '.'] := by
  refine ⟨?_, ?_, ?_, ?_, ?_⟩
  · exact List.chain'_cons.mpr ⟨Or.inl (by decide), List.chain'_singleton _⟩
  · right; decide
  · decide
  · intro h; cases h
  · intro _; refine ⟨by decide, Or.inr ⟨by omega, by decide⟩⟩

theorem ddAppend_inv_cons (dotdot : Nat) (a : Char) (t : List Char)
    (hinv : cleanInv false dotdot (a :: t)) :
    cleanInv false (((a :: t) ++ [sepChar]) ++ ['.', '.']).length
      (((a :: t) ++ [sepChar]) ++ ['.', '.']) := by
  rw [List.append_assoc]
  rw [show ([sepChar] : List Char) ++ ['.', '.'] = [sepChar, '.', '.'] from rfl]
  obtain ⟨hch, hlast, hdd, _, hrel⟩ := hinv
  obtain ⟨hh, _⟩ := hrel rfl
  have hout : (a :: t) ≠ [sepChar] := by
    intro he
    rw [he] at hh
    exact hh rfl
  have hxne : ∀ x ∈ (a :: t).getLast?, x ≠ sepChar := by
    intro x hx he
    subst he
    rcases hlast with h1 | h1
    · exact hout h1
    · exact h1 (Option.mem_def.mp hx)
  refine ⟨?_, ?_, ?_, ?_, ?_⟩
  · refine List.Chain'.append hch ?_ ?_
    · exact List.chain'_cons.mpr ⟨Or.inr (by decide),
        List.chain'_cons.mpr ⟨Or.inl (by decide), List.chain'_singleton _⟩⟩
    · intro x hx y hy
      simp only [List.head?_cons, Option.mem_def, Option.some.injEq] at hy
      subst hy
      exact Or.inl (hxne x hx)
  · right
    rw [List.getLast?_append_of_ne_nil _ (by simp)]
    decide
  · exact Nat.le_refl _
  · intro h; exact absurd h (by decide)
  · intro _
    constructor
    · simpa using hh
    · refine Or.inr ⟨by simp, ?_⟩
      have hlen : ((a :: t) ++ [sepChar, '.', '.']).length = t.length + 4 := by simp
      rw [hlen, List.getElem?_append_right (by simp)]
      have hidx : t.length + 4 - 1 - (a :: t).length = 2 := by simp
      rw [hidx]
      rfl

theorem compAppend_inv (rooted : Bool) (dotdot : Nat) (out : List Char) (c : Char)
    (cs : List Char) (hinv : cleanInv rooted dotdot out) (hc : c ≠ sepChar) :
    cleanInv rooted dotdot
      ((if (rooted = true ∧ out.length ≠ 1) ∨ (rooted = false ∧ out.length ≠ 0)
          then out ++ [sepChar] else out) ++
        (c :: cs).takeWhile (fun x => x ≠ sepChar)) := by
  obtain ⟨hch, hlast, hdd, hroot, hrel⟩ := hinv
  have hcompc : (c :: cs).takeWhile (fun x => x ≠ sepChar) =
      c :: cs.takeWhile (fun x => x ≠ sepChar) := by
    rw [List.takeWhile_cons_of_pos]
    simp [hc]
  set comp := (c :: cs).takeWhile (fun x => x ≠ sepChar) with hcompdef
  have hall : ∀ x ∈ comp, x ≠ sepChar := by
    intro x hx
    have := List.mem_takeWhile_imp hx
    simpa using this
  have hchcomp : List.Chain' noTwoSep comp := chain'_of_all_ne comp hall
  have hcompne : comp ≠ [] := by rw [hcompc]; simp
  have hcomphead : comp.head? = some c := by rw [hcompc]; rfl
  have hlastcomp : ∀ l2 : List Char, (l2 ++ comp).getLast? ≠ some sepChar := by
    intro l2 he
    rw [List.getLast?_append_of_ne_nil _ hcompne] at he
    obtain ⟨hne2, heq⟩ := List.mem_getLast?_eq_getLast (Option.mem_def.mpr he)
    have hmem : comp.getLast hne2 ∈ comp := List.getLast_mem hne2
    rw [← heq] at hmem
    exact hall _ hmem rfl
  by_cases hcond : (rooted = true ∧ out.length ≠ 1) ∨ (rooted = false ∧ out.length ≠ 0)
  · rw [if_pos hcond]
    have hnosep : ∀ x ∈ out.getLast?, x ≠ sepChar := by
      intro x hx he
      subst he
      rcases hlast with h1 | h1
      · rcases hcond with ⟨hr, hlen⟩ | ⟨hr, hlen⟩
        · rw [h1] at hlen; exact hlen rfl
        · obtain ⟨hh, _⟩ := hrel hr
          rw [h1] at hh
          exact hh rfl
      · exact h1 (Option.mem_def.mp hx)
    rw [List.append_assoc]
    rw [show [sepChar] ++ comp = sepChar :: comp from rfl]
    refine ⟨?_, ?_, ?_, ?_, ?_⟩
    · refine List.Chain'.append hch ?_ ?_
      · refine List.chain'_cons'.mpr ⟨?_, hchcomp⟩
        intro y hy
        rw [hcomphead] at hy
        simp only [Option.mem_def, Option.some.injEq] at hy
        subst hy
        exact Or.inr hc
      · intro x hx y hy
        simp only [List.head?_cons, Option.mem_def, Option.some.injEq] at hy
        subst hy
        exact Or.inl (hnosep x hx)
    · right
      rw [show sepChar :: comp = [sepChar] ++ comp from rfl, ← List.append_assoc]
      exact hlastcomp (out ++ [sepChar])
    · rw [List.length_append]
      omega
    · intro hr
      obtain ⟨hd1, hh⟩ := hroot hr
      refine ⟨hd1, ?_⟩
      cases out with
      | nil => simp at hh
      | cons a t => simpa using hh
    · intro hr
      obtain ⟨hh, hddc⟩ := hrel hr
      constructor
      · cases out with
        | nil =>
          rcases hcond with ⟨hrt, _⟩ | ⟨_, hlen⟩
          · rw [hr] at hrt; exact absurd hrt (by decide)
          · exact (hlen rfl).elim
        | cons a t =>
          simpa using hh
      · rcases hddc with hd0 | ⟨hd1, hdot⟩
        · exact Or.inl hd0
        · refine Or.inr ⟨hd1, ?_⟩
          rw [List.getElem?_append_left (by omega)]
          exact hdot
  · rw [if_neg hcond]
    push_neg at hcond
    cases rooted with
    | true =>
      obtain ⟨hd1, hh⟩ := hroot rfl
      have hlen1 : out.length = 1 := hcond.1 rfl
      have hout : out = [sepChar] := by
        cases out with
        | nil => simp at hlen1
        | cons a t =>
          simp only [List.length_cons] at hlen1
          have ht : t = [] := by
            cases t with
            | nil => rfl
            | cons b t2 => simp at hlen1
          subst ht
          simp only [List.head?_cons, Option.some.injEq] at hh
          rw [hh]
      subst hout
      refine ⟨?_, ?_, ?_, ?_, ?_⟩
      · rw [show [sepChar] ++ comp = sepChar :: comp from rfl]
        refine List.chain'_cons'.mpr ⟨?_, hchcomp⟩
        intro y hy
        rw [hcomphead] at hy
        simp only [Option.mem_def, Option.some.injEq] at hy
        subst hy
        exact Or.inr hc
      · right; exact hlastcomp [sepChar]
      · have hdd1 : dotdot ≤ 1 := by simpa using hdd
        rw [List.length_append]
        simp only [List.length_singleton]
        omega
      · intro _
        refine ⟨hd1, ?_⟩
        rw [show [sepChar] ++ comp = sepChar :: comp from rfl]
        rfl
      · intro h; exact absurd h (by decide)
    | false =>
      have hlen0 : out.length = 0 := hcond.2 rfl
      have hout : out = [] := List.length_eq_zero.mp hlen0
      subst hout
      rw [List.nil_append]
      obtain ⟨hh0, hddc⟩ := hrel rfl
      have hdd0 : dotdot = 0 := by simpa using hdd
      refine ⟨hchcomp, ?_, ?_, ?_, ?_⟩
      · right
        have := hlastcomp []
        simpa using this
      · rw [hdd0]; exact Nat.zero_le _
      · intro h; exact absurd h (by decide)
      · intro _
        refine ⟨?_, Or.inl hdd0⟩
        rw [hcomphead]
        exact fun he => hc (Option.some.inj he)

theorem cleanLoop_inv (rooted : Bool) :
    ∀ (fuel : Nat) (rest : List Char) (dotdot : Nat) (out : List Char),
      cleanInv rooted dotdot out →
      (cleanLoop rooted fuel dotdot out rest = [sepChar] ∨
       (cleanLoop rooted fuel dotdot out rest).getLast? ≠ some sepChar) := by
  intro fuel
  induction fuel with
  | zero =>
    intro rest dotdot out hinv
    cases rest with
    | nil => exact hinv.2.1
    | cons c cs => exact hinv.2.1
  | succ n ih =>
    intro rest dotdot out hinv
    cases rest with
    | nil => exact hinv.2.1
    | cons c cs =>
      simp only [cleanLoop]
      by_cases h1 : c = sepChar
      · rw [if_pos h1]
        exact ih cs dotdot out hinv
      rw [if_neg h1]
      by_cases h2 : c = '.' ∧ (cs = [] ∨ cs.head? = some sepChar)
      · rw [if_pos h2]
        exact ih cs dotdot out hinv
      rw [if_neg h2]
      by_cases h3 : c = '.' ∧ cs.head? = some '.' ∧ (cs.tail = [] ∨ cs.tail.head? = some sepChar)
      · rw [if_pos h3]
        by_cases h4 : dotdot < out.length
        · rw [if_pos h4]
          exact ih cs.tail dotdot (backtrack out dotdot) (backtrack_inv rooted dotdot out hinv h4)
        · rw [if_neg h4]
          cases rooted with
          | false =>
            rw [if_pos rfl]
            cases out with
            | nil =>
              rw [if_neg (show ¬0 < ([] : List Char).length by simp)]
              exact ih cs.tail _ _ ddAppend_inv_nil
            | cons a t =>
              rw [if_pos (show 0 < (a :: t).length by simp)]
              exact ih cs.tail _ _ (ddAppend_inv_cons dotdot a t hinv)
          | true =>
            rw [if_neg (by decide)]
            exact ih cs.tail dotdot out hinv
      · rw [if_neg h3]
        exact ih _ dotdot _ (compAppend_inv rooted dotdot out c cs hinv h1)

theorem goClean_spec (p : String) :
    goClean p = "." ∨ goClean p = String.mk [sepChar] ∨
    (∃ out : List Char, out ≠ [] ∧ goClean p = String.mk out ∧
      out.getLast? ≠ some sepChar) := by
  unfold goClean
  by_cases h : p = ""
  · rw [if_pos h]; exact Or.inl rfl
  rw [if_neg h]
  simp only []
  by_cases hro : p.toList.head? = some sepChar
  · rw [if_pos hro]
    have hinv0 : cleanInv true 1 [sepChar] := by
      refine ⟨List.chain'_singleton _, Or.inl rfl, ?_, ?_, ?_⟩
      · decide
      · intro _; exact ⟨rfl, rfl⟩
      · intro hfe; exact absurd hfe (by decide)
    have hres := cleanLoop_inv true p.toList.length p.toList.tail 1 [sepChar] hinv0
    by_cases hlen : (cleanLoop true p.toList.length 1 [sepChar] p.toList.tail).length = 0
    · rw [if_pos hlen]; exact Or.inl rfl
    · rw [if_neg hlen]
      rcases hres with h1 | h1
      · exact Or.inr (Or.inl (by rw [h1]))
      · refine Or.inr (Or.inr ⟨_, ?_, rfl, h1⟩)
        intro hn
        rw [hn] at hlen
        exact hlen rfl
  · rw [if_neg hro]
    have hinv0 : cleanInv false 0 [] := by
      refine ⟨List.chain'_nil, Or.inr (by decide), ?_, ?_, ?_⟩
      · exact Nat.le_refl _
      · intro hfe; exact absurd hfe (by decide)
      · intro _; exact ⟨by decide, Or.inl rfl⟩
    have hres := cleanLoop_inv false p.toList.length p.toList 0 [] hinv0
    by_cases hlen : (cleanLoop false p.toList.length 0 [] p.toList).length = 0
    · rw [if_pos hlen]; exact Or.inl rfl
    · rw [if_neg hlen]
      rcases hres with h1 | h1
      · exact Or.inr (Or.inl (by rw [h1]))
      · refine Or.inr (Or.inr ⟨_, ?_, rfl, h1⟩)
        intro hn
        rw [hn] at hlen
        exact hlen rfl

theorem makeTempName_error (orig : String) (rnd : Option Rnd5) (e : Err)
    (h : makeTempName orig rnd = Except.error e) : e = Err.randRead := by
  cases rnd with
  | none => exact (Except.error.inj h).symm
  | some r => cases h

/-- Claim C9: `makeTempPath` fails with `InvalidPathError` exactly when
the normalized (cleaned) path is empty or ends in the separator, which
happens exactly when the normalized path is the root `/` (the cleaned path
is never empty); for every other input on which name generation succeeds,
the result replaces only the final component of the normalized path,
living in the normalized path's parent directory. -/
theorem claim9_temp_path (p : String) (rnd : Option Rnd5) :
    ((∃ q, makeTempPath p rnd = Except.error (Err.invalidPath q)) ↔
      ((goClean p).length = 0 ∨ (goClean p).toList.getLast? = some sepChar)) ∧
    ((∃ q, makeTempPath p rnd = Except.error (Err.invalidPath q)) ↔ goClean p = "/") ∧
    (∀ res, makeTempPath p rnd = Except.ok res →
      ∃ nm, makeTempName (goBase (goClean p)) rnd = Except.ok nm ∧
        res = goJoin (goDir (goClean p)) nm) := by
  have hguard : ((goClean p).length = 0 ∨ (goClean p).toList.getLast? = some sepChar) ↔
      goClean p = "/" := by
    constructor
    · intro h
      rcases goClean_spec p with h1 | h1 | ⟨out, hne, h1, h2⟩
      · rw [h1] at h
        rcases h with h | h
        · exact absurd h (by decide)
        · exact absurd h (by decide)
      · rw [h1]; rfl
      · rw [h1] at h
        rcases h with h | h
        · have hlen : out.length = 0 := by simpa [String.length] using h
          exact absurd (List.length_eq_zero.mp hlen) hne
        · have hls : out.getLast? = some sepChar := by simpa [String.toList] using h
          exact absurd hls h2
    · intro h
      right
      rw [h]
      rfl
  by_cases hg : (goClean p).length = 0 ∨ (goClean p).toList.getLast? = some sepChar
  · have herr : makeTempPath p rnd = Except.error (Err.invalidPath (goClean p)) := by
      unfold makeTempPath
      rw [if_pos hg]
    have hiff1 : (∃ q, makeTempPath p rnd = Except.error (Err.invalidPath q)) ↔
        ((goClean p).length = 0 ∨ (goClean p).toList.getLast? = some sepChar) :=
      ⟨fun _ => hg, fun _ => ⟨goClean p, herr⟩⟩
    refine ⟨hiff1, hiff1.trans hguard, ?_⟩
    intro res hres
    rw [herr] at hres
    cases hres
  · have hiff1 : (∃ q, makeTempPath p rnd = Except.error (Err.invalidPath q)) ↔
        ((goClean p).length = 0 ∨ (goClean p).toList.getLast? = some sepChar) := by
      constructor
      · rintro ⟨q, hq⟩
        unfold makeTempPath at hq
        rw [if_neg hg] at hq
        cases hmk : makeTempName (goBase (goClean p)) rnd with
        | error e =>
          rw [hmk] at hq
          have h1 := makeTempName_error _ _ _ hmk
          have h2 := Except.error.inj hq
          exact Err.noConfusion (h1.symm.trans h2)
        | ok nm =>
          rw [hmk] at hq
          cases hq
      · intro hcontra
        exact absurd hcontra hg
    refine ⟨hiff1, hiff1.trans hguard, ?_⟩
    intro res hres
    unfold makeTempPath at hres
    rw [if_neg hg] at hres
    cases hmk : makeTempName (goBase (goClean p)) rnd with
    | error e => rw [hmk] at hres; cases hres
    | ok nm =>
      rw [hmk] at hres
      exact ⟨nm, rfl, (Except.ok.inj hres).symm⟩

/-- Witness for C9: the root path is rejected with `InvalidPathError`;
`/tmp/foo` derives `/tmp/.#foo-00000000.tmp`, beside the original. -/
theorem claim9_witness :
    (∃ q, makeTempPath "/" (some rz) = Except.error (Err.invalidPath q)) ∧
    (∃ nm, makeTempName (goBase (goClean "/tmp/foo")) (some rz) = Except.ok nm ∧
      "/tmp/.#foo-00000000.tmp" = goJoin (goDir (goClean "/tmp/foo")) nm) :=
  ⟨(claim9_temp_path "/" (some rz)).1.mpr (by decide),
   (claim9_temp_path "/tmp/foo" (some rz)).2.2 "/tmp/.#foo-00000000.tmp" (by decide)⟩
